import Mathlib

/-!
Shallow embedding of the magnet-handler JSON store core
(src/unnamed/part_001: entry/database model, checksum engine, format
detector/migrator, persistence layer, merge engine, sync orchestrator).

Modelling conventions:
* Go maps (`map[string]MagnetEntry` etc.) are association lists
  `List (String × α)` with first-match lookup; Go's unordered iteration is
  modelled as list order (no theorem below depends on the order except via
  concrete single-key inputs).
* Go `int64`/`int` fields are `Int` (no arithmetic below approaches 2^63).
* Go byte strings are `List Nat` (one `Nat` per byte, each < 256).
* JSON documents are modelled at the value level by `JsonVal`; numbers are
  restricted to integers (the program only ever writes integer numbers).
  The result of syntactically parsing a file's bytes is carried alongside
  the raw bytes in `FileData` (`parsed = none` models bytes that are not
  valid JSON), instead of re-implementing a byte-level JSON parser.
* `crypto/rand`-based `GenerateUUID` is modelled by an explicit supply
  `uuids : Nat → String`; `time.Now()` by an explicit `now : String`.
-/

/-- Association-list lookup, first match wins (models Go map indexing). -/
def lookupKey {α : Type} : List (String × α) → String → Option α
  | [], _ => none
  | (k, v) :: rest, h => if k = h then some v else lookupKey rest h

/-- The key set of an association list (models Go map key range). -/
def keysOf {α : Type} (m : List (String × α)) : List String :=
  m.map Prod.fst

/-- Insert-or-replace (models Go `m[k] = v`). -/
def mapInsert {α : Type} : List (String × α) → String → α → List (String × α)
  | [], k, v => [(k, v)]
  | (k', v') :: rest, k, v =>
    if k' = k then (k, v) :: rest else (k', v') :: mapInsert rest k v

/-- Key removal (models Go `delete(m, k)`). -/
def mapDelete {α : Type} : List (String × α) → String → List (String × α)
  | [], _ => []
  | (k', v') :: rest, k =>
    if k' = k then mapDelete rest k else (k', v') :: mapDelete rest k

/-- One tracked magnet link (struct `MagnetEntry`, part_001 lines 34-49).
Field order and JSON tags follow the source; `omitempty` tags are realized
in `entryToJson`. -/
structure MagnetEntry where
  UUID : String
  ID : Int
  Title : String
  Hash : String
  URI : String
  AddedDate : String
  FirstSeen : String
  LastAttempt : String
  Status : String
  TorrentID : String
  AddedToDeluge : String
  RetryCount : Int
  SavePath : String
  TorrentName : String
deriving Repr, DecidableEq

/-- The Go zero value of `MagnetEntry`. -/
def zeroEntry : MagnetEntry :=
  ⟨"", 0, "", "", "", "", "", "", "", "", "", 0, "", ""⟩

/-- Sync metadata (struct `DatabaseMetadata`, part_001 lines 52-56). -/
structure DatabaseMetadata where
  LastSequence : Int
  LastModified : String
  Checksum : String
deriving Repr, DecidableEq

/-- Current-schema database (struct `MagnetDatabase`, part_001 lines 59-63). -/
structure MagnetDatabase where
  Metadata : DatabaseMetadata
  Added : List (String × MagnetEntry)
  Retry : List (String × MagnetEntry)
deriving Repr, DecidableEq

/-- The empty current-schema database built at the top of
`LoadJSONDatabase` (part_001 lines 353-357). -/
def emptyDb : MagnetDatabase :=
  ⟨⟨0, "", ""⟩, [], []⟩

/-- Legacy V0 (Python flat map) entry (struct `MagnetEntryV0`,
part_001 lines 68-82). `Progress` is a float in Go; it is only ever
type-checked during decoding, never read, so an `Int` carrier suffices
for the integer-valued documents this model ranges over. -/
structure MagnetEntryV0 where
  Hash : String
  Title : String
  URI : String
  TorrentName : String
  SavePath : String
  State : String
  Progress : Int
  Status : String
  TorrentID : String
  AddedToDeluge : String
  FirstSeen : String
  LastAttempt : String
  Backfilled : String
deriving Repr, DecidableEq

/-- The Go zero value of `MagnetEntryV0`. -/
def zeroEntryV0 : MagnetEntryV0 :=
  ⟨"", "", "", "", "", "", 0, "", "", "", "", "", ""⟩

/-- Legacy V1 entry (struct `MagnetEntryV1`, part_001 lines 85-94). -/
structure MagnetEntryV1 where
  Title : String
  Hash : String
  URI : String
  AddedDate : String
  LastAttempt : String
  RetryCount : Int
  SavePath : String
  TorrentName : String
deriving Repr, DecidableEq

/-- The Go zero value of `MagnetEntryV1`. -/
def zeroEntryV1 : MagnetEntryV1 :=
  ⟨"", "", "", "", "", 0, "", ""⟩

/-- Legacy V1 database (struct `MagnetDatabaseV1`, part_001 lines 96-99). -/
structure MagnetDatabaseV1 where
  Added : List (String × MagnetEntryV1)
  Retry : List (String × MagnetEntryV1)
deriving Repr, DecidableEq

/-! ## JSON values -/

/-- JSON documents at the value level. Numbers are restricted to the
integers, which covers every document the program writes. -/
inductive JsonVal where
  | jnull : JsonVal
  | jbool : Bool → JsonVal
  | jint : Int → JsonVal
  | jstr : String → JsonVal
  | jarr : List JsonVal → JsonVal
  | jobj : List (String × JsonVal) → JsonVal

open JsonVal

/-! ## Marshalling (Go `encoding/json` encoder for the store's types)

`json.Marshal` emits struct fields in declaration order, omits fields
tagged `omitempty` whose value is the zero value, and emits map entries
sorted by key (byte-wise, which for UTF-8 agrees with code-point order). -/

/-- An `omitempty` string field: omitted when empty. -/
def optStrField (k s : String) : List (String × JsonVal) :=
  if s = "" then [] else [(k, jstr s)]

/-- An `omitempty` integer field: omitted when zero. -/
def optIntField (k : String) (n : Int) : List (String × JsonVal) :=
  if n = 0 then [] else [(k, jint n)]

/-- `json.Marshal` of a `MagnetEntry` (JSON tags of part_001 lines 34-49). -/
def entryToJson (e : MagnetEntry) : JsonVal :=
  jobj ([("uuid", jstr e.UUID)] ++
    optIntField "id" e.ID ++
    [("title", jstr e.Title), ("hash", jstr e.Hash), ("uri", jstr e.URI),
     ("added_date", jstr e.AddedDate)] ++
    optStrField "first_seen" e.FirstSeen ++
    optStrField "last_attempt" e.LastAttempt ++
    optStrField "status" e.Status ++
    optStrField "torrent_id" e.TorrentID ++
    optStrField "added_to_deluge" e.AddedToDeluge ++
    optIntField "retry_count" e.RetryCount ++
    optStrField "save_path" e.SavePath ++
    optStrField "torrent_name" e.TorrentName)

/-- `json.Marshal` of `DatabaseMetadata` (no omitempty tags). -/
def metadataToJson (m : DatabaseMetadata) : JsonVal :=
  jobj [("last_sequence", jint m.LastSequence),
        ("last_modified", jstr m.LastModified),
        ("checksum", jstr m.Checksum)]

/-- Sorted insertion by key (`<` on strings), used to model the sorted
map-key order of Go's JSON encoder. -/
def insortKey {α : Type} (p : String × α) :
    List (String × α) → List (String × α)
  | [] => [p]
  | q :: rest => if p.1 < q.1 then p :: q :: rest else q :: insortKey p rest

/-- Sort an association list by key. Go map keys are pairwise distinct, so
the sorted arrangement is unique and this models the encoder's key order. -/
def sortKeys {α : Type} (m : List (String × α)) : List (String × α) :=
  m.foldr insortKey []

/-- `json.Marshal` of a `map[string]MagnetEntry`. -/
def mapToJson (m : List (String × MagnetEntry)) : JsonVal :=
  jobj ((sortKeys m).map (fun p => (p.1, entryToJson p.2)))

/-- `json.Marshal` of a `MagnetDatabase`. -/
def dbToJson (db : MagnetDatabase) : JsonVal :=
  jobj [("metadata", metadataToJson db.Metadata),
        ("added", mapToJson db.Added),
        ("retry", mapToJson db.Retry)]

/-! ## Rendering JSON values to text (Go encoder output) -/

/-- Digits for hexadecimal output. -/
def hexChar (n : Nat) : Char :=
  if n < 10 then Char.ofNat (48 + n) else Char.ofNat (87 + n)

/-- Go's JSON string escaping: quotes, backslash, newline, carriage
return, tab, other control characters, the HTML-sensitive characters
`<`, `>`, `&`, and U+2028/U+2029. -/
def escapeChar (c : Char) : String :=
  if c = '"' then "\\\""
  else if c = '\\' then "\\\\"
  else if c = '\n' then "\\n"
  else if c = '\r' then "\\r"
  else if c = '\t' then "\\t"
  else if c.toNat < 32 then
    String.mk ['\\', 'u', '0', '0', hexChar (c.toNat / 16), hexChar (c.toNat % 16)]
  else if c = '<' then "\\u003c"
  else if c = '>' then "\\u003e"
  else if c = '&' then "\\u0026"
  else if c.toNat = 8232 then "\\u2028"
  else if c.toNat = 8233 then "\\u2029"
  else String.mk [c]

/-- Escaped, quoted JSON string literal. -/
def renderStr (s : String) : String :=
  "\"" ++ String.join (s.data.map escapeChar) ++ "\""

/-- Decimal rendering of an integer, as Go prints int64 values. -/
def intStr (i : Int) : String :=
  if i < 0 then "-" ++ Nat.repr i.natAbs else Nat.repr i.natAbs

/-- Interleave a separator between rendered items. -/
def joinSep (sep : String) : List String → String
  | [] => ""
  | [x] => x
  | x :: rest => x ++ sep ++ joinSep sep rest

mutual

/-- Compact rendering, as produced by `json.Marshal`. -/
def renderJson : JsonVal → String
  | jnull => "null"
  | jbool true => "true"
  | jbool false => "false"
  | jint i => intStr i
  | jstr s => renderStr s
  | jarr xs => "[" ++ joinSep "," (renderJsonList xs) ++ "]"
  | jobj fs => "\x7b" ++ joinSep "," (renderJsonFields fs) ++ "\x7d"

/-- Compact rendering of array elements. -/
def renderJsonList : List JsonVal → List String
  | [] => []
  | x :: rest => renderJson x :: renderJsonList rest

/-- Compact rendering of object members. -/
def renderJsonFields : List (String × JsonVal) → List String
  | [] => []
  | (k, v) :: rest => (renderStr k ++ ":" ++ renderJson v) :: renderJsonFields rest

end

/-- Repeat the two-space indent unit (MarshalIndent with indent "  "). -/
def indentOf : Nat → String
  | 0 => ""
  | n + 1 => indentOf n ++ "  "

mutual

/-- Indented rendering at a nesting depth, as produced by
`json.MarshalIndent(db, "", "  ")` in `SaveDatabaseLocal`. -/
def renderJsonIndent (d : Nat) : JsonVal → String
  | jnull => "null"
  | jbool true => "true"
  | jbool false => "false"
  | jint i => intStr i
  | jstr s => renderStr s
  | jarr [] => "[]"
  | jarr (x :: xs) =>
    "[\n" ++ joinSep ",\n" (renderIndentList (d + 1) (x :: xs)) ++
      "\n" ++ indentOf d ++ "]"
  | jobj [] => "\x7b\x7d"
  | jobj (f :: fs) =>
    "\x7b\n" ++ joinSep ",\n" (renderIndentFields (d + 1) (f :: fs)) ++
      "\n" ++ indentOf d ++ "\x7d"

/-- Indented rendering of array elements. -/
def renderIndentList (d : Nat) : List JsonVal → List String
  | [] => []
  | x :: rest => (indentOf d ++ renderJsonIndent d x) :: renderIndentList d rest

/-- Indented rendering of object members. -/
def renderIndentFields (d : Nat) : List (String × JsonVal) → List String
  | [] => []
  | (k, v) :: rest =>
    (indentOf d ++ renderStr k ++ ": " ++ renderJsonIndent d v) ::
      renderIndentFields d rest

end

/-- UTF-8 encoding of one code point. -/
def utf8Bytes (c : Char) : List Nat :=
  let n := c.toNat
  if n < 128 then [n]
  else if n < 2048 then [192 + n / 64, 128 + n % 64]
  else if n < 65536 then [224 + n / 4096, 128 + n / 64 % 64, 128 + n % 64]
  else [240 + n / 262144, 128 + n / 4096 % 64, 128 + n / 64 % 64, 128 + n % 64]

/-- A Go string's bytes (UTF-8). -/
def strBytes (s : String) : List Nat :=
  (s.data.map utf8Bytes).flatten

/-! ## SHA-1 (crypto/sha1), over byte lists, words as `Nat` mod 2^32 -/

/-- 32-bit left rotation. -/
def rotl32 (n x : Nat) : Nat :=
  ((x <<< n) ||| (x >>> (32 - n))) % 4294967296

/-- Big-endian 4-byte group to a 32-bit word. -/
def bytesToWords : List Nat → List Nat
  | a :: b :: c :: d :: rest =>
    (a * 16777216 + b * 65536 + c * 256 + d) :: bytesToWords rest
  | _ => []

/-- 32-bit word to big-endian bytes. -/
def w32be (x : Nat) : List Nat :=
  [x / 16777216 % 256, x / 65536 % 256, x / 256 % 256, x % 256]

/-- 64-bit value to big-endian bytes. -/
def be64 (n : Nat) : List Nat :=
  [n / 72057594037927936 % 256, n / 281474976710656 % 256,
   n / 1099511627776 % 256, n / 4294967296 % 256,
   n / 16777216 % 256, n / 65536 % 256, n / 256 % 256, n % 256]

/-- SHA-1 message padding: 0x80, zeros to 56 mod 64, 64-bit bit length. -/
def sha1Pad (msg : List Nat) : List Nat :=
  let len := msg.length
  let z := (120 - (len + 1) % 64) % 64
  msg ++ [128] ++ List.replicate z 0 ++ be64 (len * 8)

/-- Extend the 16 schedule words by one (w[i] = rotl1 of the xor of
w[i-3], w[i-8], w[i-14], w[i-16]). -/
def extendStep (w : List Nat) : List Nat :=
  let l := w.length
  w ++ [rotl32 1 (((w.getD (l - 3) 0 ^^^ w.getD (l - 8) 0) ^^^
    w.getD (l - 14) 0) ^^^ w.getD (l - 16) 0)]

/-- Extend a 16-word schedule to 80 words. -/
def extendTo80 (w : List Nat) : List Nat :=
  (List.range 64).foldl (fun acc _ => extendStep acc) w

/-- One SHA-1 round. -/
def sha1Round (st : Nat × Nat × Nat × Nat × Nat) (iw : Nat × Nat) :
    Nat × Nat × Nat × Nat × Nat :=
  let (a, b, c, d, e) := st
  let (i, w) := iw
  let f :=
    if i < 20 then ((b &&& c) ||| ((4294967295 - b) &&& d))
    else if i < 40 then (b ^^^ c) ^^^ d
    else if i < 60 then ((b &&& c) ||| (b &&& d)) ||| (c &&& d)
    else (b ^^^ c) ^^^ d
  let k :=
    if i < 20 then 1518500249
    else if i < 40 then 1859775393
    else if i < 60 then 2400959708
    else 3395469782
  let temp := (rotl32 5 a + f + e + k + w) % 4294967296
  (temp, a, rotl32 30 b, c, d)

/-- Process one 64-byte chunk. -/
def sha1Chunk (h : Nat × Nat × Nat × Nat × Nat) (chunk : List Nat) :
    Nat × Nat × Nat × Nat × Nat :=
  let (h0, h1, h2, h3, h4) := h
  let w := extendTo80 (bytesToWords chunk)
  let (a, b, c, d, e) :=
    (w.enum.foldl sha1Round (h0, h1, h2, h3, h4))
  ((h0 + a) % 4294967296, (h1 + b) % 4294967296, (h2 + c) % 4294967296,
   (h3 + d) % 4294967296, (h4 + e) % 4294967296)

/-- Split into 64-byte chunks (fuel recursion; padded input has length a
multiple of 64). -/
def chunks64Go : Nat → List Nat → List (List Nat)
  | 0, _ => []
  | _ + 1, [] => []
  | fuel + 1, l => l.take 64 :: chunks64Go fuel (l.drop 64)

/-- All 64-byte chunks of a byte list. -/
def chunks64 (l : List Nat) : List (List Nat) :=
  chunks64Go l.length l

/-- SHA-1 digest of a byte list, as 20 bytes. -/
def sha1 (msg : List Nat) : List Nat :=
  let st :=
    (chunks64 (sha1Pad msg)).foldl sha1Chunk
      (1732584193, 4023233417, 2562383102, 271733878, 3285377520)
  w32be st.1 ++ w32be st.2.1 ++ w32be st.2.2.1 ++
    w32be st.2.2.2.1 ++ w32be st.2.2.2.2

/-- Lowercase hexadecimal of a byte list (`hex.EncodeToString`). -/
def hexEncode (bs : List Nat) : String :=
  String.mk ((bs.map (fun b => [hexChar (b / 16), hexChar (b % 16)])).flatten)

set_option maxRecDepth 100000 in
/-- Known-answer check of the SHA-1 model ("abc"). -/
theorem sha1_abc : hexEncode (sha1 [97, 98, 99]) =
    "a9993e364706816aba3e25717850c26c9cd0d89d" := by decide

/-- `ComputeChecksum` (part_001 lines 136-146): SHA-1 of `json.Marshal`
of the whole `MagnetDatabase` value, hex encoded. `json.Marshal` cannot
fail on this type, so the error branch returning `""` is unreachable. -/
def ComputeChecksum (db : MagnetDatabase) : String :=
  hexEncode (sha1 (strBytes (renderJson (dbToJson db))))

/-! ## Unmarshalling (Go `encoding/json` decoder for the store's types)

`json.Unmarshal` is modelled all-or-nothing: a type mismatch yields
`none` where Go records an error (both count as a failed parse attempt in
`LoadJSONDatabase`; the partially-decoded state Go leaves behind on error
is discarded by the loader's subsequent attempts and is not modelled).
JSON `null` is a no-op leaving the target value unchanged; unknown object
keys are ignored; duplicate keys are decoded left to right, last write
winning — all as in Go. -/

/-- Decode a JSON value into a string field holding `old`. -/
def setStr (v : JsonVal) (old : String) : Option String :=
  match v with
  | jstr s => some s
  | jnull => some old
  | _ => none

/-- Decode a JSON value into an integer field holding `old`. -/
def setInt (v : JsonVal) (old : Int) : Option Int :=
  match v with
  | jint n => some n
  | jnull => some old
  | _ => none

/-- Fold a struct decoder over an object's members. -/
def decodeFields {α : Type} (set : α → String × JsonVal → Option α)
    (init : α) (fs : List (String × JsonVal)) : Option α :=
  fs.foldl (fun acc kv => acc.bind (fun a => set a kv)) (some init)

/-- One member of a `MagnetEntry` object (JSON tags of lines 34-49). -/
def entrySetField (e : MagnetEntry) (kv : String × JsonVal) :
    Option MagnetEntry :=
  if kv.1 = "uuid" then (setStr kv.2 e.UUID).map (fun x => {e with UUID := x})
  else if kv.1 = "id" then (setInt kv.2 e.ID).map (fun x => {e with ID := x})
  else if kv.1 = "title" then (setStr kv.2 e.Title).map (fun x => {e with Title := x})
  else if kv.1 = "hash" then (setStr kv.2 e.Hash).map (fun x => {e with Hash := x})
  else if kv.1 = "uri" then (setStr kv.2 e.URI).map (fun x => {e with URI := x})
  else if kv.1 = "added_date" then (setStr kv.2 e.AddedDate).map (fun x => {e with AddedDate := x})
  else if kv.1 = "first_seen" then (setStr kv.2 e.FirstSeen).map (fun x => {e with FirstSeen := x})
  else if kv.1 = "last_attempt" then (setStr kv.2 e.LastAttempt).map (fun x => {e with LastAttempt := x})
  else if kv.1 = "status" then (setStr kv.2 e.Status).map (fun x => {e with Status := x})
  else if kv.1 = "torrent_id" then (setStr kv.2 e.TorrentID).map (fun x => {e with TorrentID := x})
  else if kv.1 = "added_to_deluge" then (setStr kv.2 e.AddedToDeluge).map (fun x => {e with AddedToDeluge := x})
  else if kv.1 = "retry_count" then (setInt kv.2 e.RetryCount).map (fun x => {e with RetryCount := x})
  else if kv.1 = "save_path" then (setStr kv.2 e.SavePath).map (fun x => {e with SavePath := x})
  else if kv.1 = "torrent_name" then (setStr kv.2 e.TorrentName).map (fun x => {e with TorrentName := x})
  else some e

/-- Unmarshal a JSON value as a `MagnetEntry` (fresh zero value, as for a
map element). -/
def decodeEntry (j : JsonVal) : Option MagnetEntry :=
  match j with
  | jnull => some zeroEntry
  | jobj fs => decodeFields entrySetField zeroEntry fs
  | _ => none

/-- One member of a `DatabaseMetadata` object. -/
def metadataSetField (m : DatabaseMetadata) (kv : String × JsonVal) :
    Option DatabaseMetadata :=
  if kv.1 = "last_sequence" then
    (setInt kv.2 m.LastSequence).map (fun x => {m with LastSequence := x})
  else if kv.1 = "last_modified" then
    (setStr kv.2 m.LastModified).map (fun x => {m with LastModified := x})
  else if kv.1 = "checksum" then
    (setStr kv.2 m.Checksum).map (fun x => {m with Checksum := x})
  else some m

/-- Unmarshal a JSON value into an existing `DatabaseMetadata`. -/
def decodeMetadataInto (m : DatabaseMetadata) (j : JsonVal) :
    Option DatabaseMetadata :=
  match j with
  | jnull => some m
  | jobj fs => decodeFields metadataSetField m fs
  | _ => none

/-- Unmarshal a JSON value into an existing `map[string]MagnetEntry`. -/
def decodeEntryMapInto (init : List (String × MagnetEntry)) (j : JsonVal) :
    Option (List (String × MagnetEntry)) :=
  match j with
  | jnull => some init
  | jobj fs =>
    fs.foldl (fun acc kv =>
      acc.bind (fun m => (decodeEntry kv.2).map (mapInsert m kv.1)))
      (some init)
  | _ => none

/-- One member of a current-schema `MagnetDatabase` object. -/
def dbSetField (db : MagnetDatabase) (kv : String × JsonVal) :
    Option MagnetDatabase :=
  if kv.1 = "metadata" then
    (decodeMetadataInto db.Metadata kv.2).map (fun x => {db with Metadata := x})
  else if kv.1 = "added" then
    (decodeEntryMapInto db.Added kv.2).map (fun x => {db with Added := x})
  else if kv.1 = "retry" then
    (decodeEntryMapInto db.Retry kv.2).map (fun x => {db with Retry := x})
  else some db

/-- Unmarshal as the current schema: `json.Unmarshal(data, db)` with `db`
freshly initialized to empty maps (lines 353-357, 375). -/
def decodeDatabase (j : JsonVal) : Option MagnetDatabase :=
  match j with
  | jnull => some emptyDb
  | jobj fs => decodeFields dbSetField emptyDb fs
  | _ => none

/-- One member of a `MagnetEntryV0` object (JSON tags of lines 68-82). -/
def v0SetField (e : MagnetEntryV0) (kv : String × JsonVal) :
    Option MagnetEntryV0 :=
  if kv.1 = "hash" then (setStr kv.2 e.Hash).map (fun x => {e with Hash := x})
  else if kv.1 = "title" then (setStr kv.2 e.Title).map (fun x => {e with Title := x})
  else if kv.1 = "uri" then (setStr kv.2 e.URI).map (fun x => {e with URI := x})
  else if kv.1 = "torrent_name" then (setStr kv.2 e.TorrentName).map (fun x => {e with TorrentName := x})
  else if kv.1 = "save_path" then (setStr kv.2 e.SavePath).map (fun x => {e with SavePath := x})
  else if kv.1 = "state" then (setStr kv.2 e.State).map (fun x => {e with State := x})
  else if kv.1 = "progress" then (setInt kv.2 e.Progress).map (fun x => {e with Progress := x})
  else if kv.1 = "status" then (setStr kv.2 e.Status).map (fun x => {e with Status := x})
  else if kv.1 = "torrent_id" then (setStr kv.2 e.TorrentID).map (fun x => {e with TorrentID := x})
  else if kv.1 = "added_to_deluge" then (setStr kv.2 e.AddedToDeluge).map (fun x => {e with AddedToDeluge := x})
  else if kv.1 = "first_seen" then (setStr kv.2 e.FirstSeen).map (fun x => {e with FirstSeen := x})
  else if kv.1 = "last_attempt" then (setStr kv.2 e.LastAttempt).map (fun x => {e with LastAttempt := x})
  else if kv.1 = "backfilled" then (setStr kv.2 e.Backfilled).map (fun x => {e with Backfilled := x})
  else some e

/-- Unmarshal a JSON value as a `MagnetEntryV0`. -/
def decodeEntryV0 (j : JsonVal) : Option MagnetEntryV0 :=
  match j with
  | jnull => some zeroEntryV0
  | jobj fs => decodeFields v0SetField zeroEntryV0 fs
  | _ => none

/-- Unmarshal as the V0 schema: a bare `map[string]MagnetEntryV0`
(line 382-383). -/
def decodeV0Top (j : JsonVal) : Option (List (String × MagnetEntryV0)) :=
  match j with
  | jnull => some []
  | jobj fs =>
    fs.foldl (fun acc kv =>
      acc.bind (fun m => (decodeEntryV0 kv.2).map (mapInsert m kv.1)))
      (some [])
  | _ => none

/-- One member of a `MagnetEntryV1` object (JSON tags of lines 85-94). -/
def v1SetField (e : MagnetEntryV1) (kv : String × JsonVal) :
    Option MagnetEntryV1 :=
  if kv.1 = "title" then (setStr kv.2 e.Title).map (fun x => {e with Title := x})
  else if kv.1 = "hash" then (setStr kv.2 e.Hash).map (fun x => {e with Hash := x})
  else if kv.1 = "uri" then (setStr kv.2 e.URI).map (fun x => {e with URI := x})
  else if kv.1 = "added_date" then (setStr kv.2 e.AddedDate).map (fun x => {e with AddedDate := x})
  else if kv.1 = "last_attempt" then (setStr kv.2 e.LastAttempt).map (fun x => {e with LastAttempt := x})
  else if kv.1 = "retry_count" then (setInt kv.2 e.RetryCount).map (fun x => {e with RetryCount := x})
  else if kv.1 = "save_path" then (setStr kv.2 e.SavePath).map (fun x => {e with SavePath := x})
  else if kv.1 = "torrent_name" then (setStr kv.2 e.TorrentName).map (fun x => {e with TorrentName := x})
  else some e

/-- Unmarshal a JSON value as a `MagnetEntryV1`. -/
def decodeEntryV1 (j : JsonVal) : Option MagnetEntryV1 :=
  match j with
  | jnull => some zeroEntryV1
  | jobj fs => decodeFields v1SetField zeroEntryV1 fs
  | _ => none

/-- Unmarshal a JSON value into an existing `map[string]MagnetEntryV1`. -/
def decodeV1MapInto (init : List (String × MagnetEntryV1)) (j : JsonVal) :
    Option (List (String × MagnetEntryV1)) :=
  match j with
  | jnull => some init
  | jobj fs =>
    fs.foldl (fun acc kv =>
      acc.bind (fun m => (decodeEntryV1 kv.2).map (mapInsert m kv.1)))
      (some init)
  | _ => none

/-- One member of a `MagnetDatabaseV1` object. -/
def v1DbSetField (db : MagnetDatabaseV1) (kv : String × JsonVal) :
    Option MagnetDatabaseV1 :=
  if kv.1 = "added" then
    (decodeV1MapInto db.Added kv.2).map (fun x => {db with Added := x})
  else if kv.1 = "retry" then
    (decodeV1MapInto db.Retry kv.2).map (fun x => {db with Retry := x})
  else some db

/-- Unmarshal as the V1 schema (lines 419-423; maps pre-made empty). -/
def decodeV1Top (j : JsonVal) : Option MagnetDatabaseV1 :=
  match j with
  | jnull => some ⟨[], []⟩
  | jobj fs => decodeFields v1DbSetField ⟨[], []⟩ fs
  | _ => none

/-! ## Format detector / migrator (`LoadJSONDatabase`, lines 352-470) -/

/-- V0 migration (lines 385-415): all entries become `added` entries with
generated UUIDs and sequential IDs in encounter order; a missing `uri` is
synthesized from the hash; the sequence counter is seeded and the data
checksum recomputed (with `LastModified` still the zero value at that
point). -/
def migrateV0 (l : List (String × MagnetEntryV0)) (uuids : Nat → String) :
    MagnetDatabase :=
  let (added, nid, _) :=
    l.foldl (fun (acc : List (String × MagnetEntry) × Int × Nat) p =>
      let v0 := p.2
      let uri := if v0.URI = "" then "magnet:?xt=urn:btih:" ++ v0.Hash else v0.URI
      let e : MagnetEntry :=
        ⟨uuids acc.2.2, acc.2.1, v0.Title, v0.Hash, uri, v0.FirstSeen,
         v0.FirstSeen, v0.LastAttempt, v0.Status, v0.TorrentID,
         v0.AddedToDeluge, 0, v0.SavePath, v0.TorrentName⟩
      (mapInsert acc.1 p.1 e, acc.2.1 + 1, acc.2.2 + 1)) ([], 1, 0)
  let db0 : MagnetDatabase := ⟨⟨nid - 1, "", ""⟩, added, []⟩
  ⟨⟨nid - 1, "", ComputeChecksum db0⟩, added, []⟩

/-- V1 migration (lines 424-452): `added` entries first, then `retry`,
with generated UUIDs and sequential IDs; counter seeded and checksum
recomputed. -/
def migrateV1 (d : MagnetDatabaseV1) (uuids : Nat → String) :
    MagnetDatabase :=
  let conv := fun (nid : Int) (idx : Nat) (v1 : MagnetEntryV1) =>
    (⟨uuids idx, nid, v1.Title, v1.Hash, v1.URI, v1.AddedDate, "",
      v1.LastAttempt, "", "", "", v1.RetryCount, v1.SavePath,
      v1.TorrentName⟩ : MagnetEntry)
  let (added, nid1, idx1) :=
    d.Added.foldl (fun (acc : List (String × MagnetEntry) × Int × Nat) p =>
      (mapInsert acc.1 p.1 (conv acc.2.1 acc.2.2 p.2), acc.2.1 + 1, acc.2.2 + 1))
      ([], 1, 0)
  let (retry, nid2, _) :=
    d.Retry.foldl (fun (acc : List (String × MagnetEntry) × Int × Nat) p =>
      (mapInsert acc.1 p.1 (conv acc.2.1 acc.2.2 p.2), acc.2.1 + 1, acc.2.2 + 1))
      ([], nid1, idx1)
  let db0 : MagnetDatabase := ⟨⟨nid2 - 1, "", ""⟩, added, retry⟩
  ⟨⟨nid2 - 1, "", ComputeChecksum db0⟩, added, retry⟩

/-- The detector cascade run on successfully read bytes (lines 374-466),
split into its three attempts: current format is accepted when it parses
with at least one entry; then V0 when it parses to a non-empty map; then
V1 when it parses with at least one entry; otherwise the load fails with
a format error. The `len(data) > 1024` checks on lines 446 and 456 only
emit log output (the V1 one is unreachable with zero entries) and do not
alter the result, so the byte count does not appear here. `parsed = none`
stands for bytes on which every `json.Unmarshal` fails syntactically.
This is the final V1 attempt (lines 418-453). -/
def loadBytesV1 (j : JsonVal) (uuids : Nat → String) :
    Except String MagnetDatabase :=
  match decodeV1Top j with
  | some d1 =>
    if 0 < d1.Added.length + d1.Retry.length then .ok (migrateV1 d1 uuids)
    else .error "unrecognized format"
  | none => .error "unrecognized format"

/-- The V0 attempt (lines 381-416), falling through to V1. -/
def loadBytesV0 (j : JsonVal) (uuids : Nat → String) :
    Except String MagnetDatabase :=
  match decodeV0Top j with
  | some l => if 0 < l.length then .ok (migrateV0 l uuids) else loadBytesV1 j uuids
  | none => loadBytesV1 j uuids

/-- The full cascade: current format first (lines 374-379), then V0,
then V1. -/
def loadBytes (parsed : Option JsonVal) (uuids : Nat → String) :
    Except String MagnetDatabase :=
  match parsed with
  | none => .error "unrecognized format"
  | some j =>
    match decodeDatabase j with
    | some db =>
      if 0 < db.Added.length ∨ 0 < db.Retry.length then .ok db
      else loadBytesV0 j uuids
    | none => loadBytesV0 j uuids

/-! ## Persistence layer over an explicit file system -/

/-- A file's content: its raw bytes together with the result of parsing
those bytes as JSON (`none` = syntactically invalid). -/
structure FileData where
  bytes : List Nat
  parsed : Option JsonVal

/-- A file system: paths to optional file contents (`none` = the path
does not exist / cannot be read). -/
def FS : Type := String → Option FileData

/-- Point update of a file system. -/
def fsUpdate (fs : FS) (p : String) (v : Option FileData) : FS :=
  fun q => if q = p then v else fs q

/-- `LoadJSONDatabase` (lines 352-470): a missing path yields the empty
database without error; present bytes go through the detector cascade.
The bounded retry loop re-reads the same present file, so it is
deterministic here. -/
def LoadJSONDatabase (fs : FS) (uuids : Nat → String) (path : String) :
    Except String MagnetDatabase :=
  match fs path with
  | none => .ok emptyDb
  | some f => loadBytes f.parsed uuids

/-- `ComputeFileChecksum` (lines 149-156): SHA-1 of the raw bytes. -/
def ComputeFileChecksum (fs : FS) (path : String) : Except String String :=
  match fs path with
  | none => .error "read error"
  | some f => .ok (hexEncode (sha1 f.bytes))

/-! ## Merge engine (`MergeDatabases`, lines 473-556) -/

/-- The four candidate slots for one hash, in the fixed source order
local-added, local-retry, remote-added, remote-retry (lines 499-517);
the `Bool` is the candidate's `isAdded` tier. -/
def candidatesFor (loc rem : MagnetDatabase) (h : String) :
    List (Option MagnetEntry × Bool) :=
  [(lookupKey loc.Added h, true), (lookupKey loc.Retry h, false),
   (lookupKey rem.Added h, true), (lookupKey rem.Retry h, false)]

/-- The winner-selection loop (lines 519-529): a candidate replaces the
current winner when there is none yet, or it is an `added` candidate
while the winner is a `retry` one, or its `ID` is strictly higher
(`!winnerFound || c.isAdded && !inAdded || c.entry.ID > winner.ID`). -/
def pwStep (acc : Option (MagnetEntry × Bool)) (c : Option MagnetEntry × Bool) :
    Option (MagnetEntry × Bool) :=
  match c.1 with
  | none => acc
  | some e =>
    match acc with
    | none => some (e, c.2)
    | some (w, wA) =>
      if (c.2 && !wA) || decide (w.ID < e.ID) then some (e, c.2) else acc

/-- The full selection over the candidate list, starting with no winner. -/
def pickWinner (cands : List (Option MagnetEntry × Bool)) :
    Option (MagnetEntry × Bool) :=
  cands.foldl pwStep none

/-- Append-if-absent, building the union hash set of lines 482-494 (Go
map iteration order is modelled as first-encounter order). -/
def insertUniq (l : List String) (x : String) : List String :=
  if x ∈ l then l else l ++ [x]

/-- The union of all hashes in either snapshot's maps. -/
def allHashesOf (loc rem : MagnetDatabase) : List String :=
  (keysOf loc.Added ++ keysOf loc.Retry ++
    keysOf rem.Added ++ keysOf rem.Retry).foldl insertUniq []

/-- Per-hash merge step (lines 497-548): pick the winner, assign a fresh
sequential ID when its ID is 0, otherwise raise the running counter to
at least `ID + 1`, and store it under the winning tier. The accumulator
is (added so far, retry so far, nextID). -/
def mergeStep (loc rem : MagnetDatabase)
    (acc : List (String × MagnetEntry) × List (String × MagnetEntry) × Int)
    (h : String) :
    List (String × MagnetEntry) × List (String × MagnetEntry) × Int :=
  match pickWinner (candidatesFor loc rem h) with
  | none => acc
  | some (w, inAdded) =>
    let nid := acc.2.2
    let w' := if w.ID = 0 then {w with ID := nid} else w
    let nid' := if w.ID = 0 then nid + 1
      else if nid ≤ w.ID then w.ID + 1 else nid
    if inAdded then (mapInsert acc.1 h w', acc.2.1, nid')
    else (acc.1, mapInsert acc.2.1 h w', nid')

/-- `MergeDatabases` (lines 473-556): fold the per-hash step over the
hash union starting from empty maps and counter 1, then set
`LastSequence = nextID - 1`, refresh `LastModified`, and recompute the
checksum (over the value whose `Checksum` field is still zero). -/
def MergeDatabases (loc rem : MagnetDatabase) (now : String) :
    MagnetDatabase :=
  let res := (allHashesOf loc rem).foldl (mergeStep loc rem) ([], [], 1)
  let m0 : MagnetDatabase := ⟨⟨res.2.2 - 1, now, ""⟩, res.1, res.2.1⟩
  ⟨⟨res.2.2 - 1, now, ComputeChecksum m0⟩, res.1, res.2.1⟩

/-! ## Sync orchestrator -/

/-- `SyncWithRemote` (lines 559-607): if both file checksums are
computable, equal, and at least 8 characters long, return the local load
(wrapping its error); otherwise load local (falling back to a fresh
database on error), then remote (returning local alone on error), and
merge. -/
def SyncWithRemote (fs : FS) (uuids : Nat → String) (now : String)
    (localPath remotePath : String) : Except String MagnetDatabase :=
  let same : Bool :=
    match ComputeFileChecksum fs localPath, ComputeFileChecksum fs remotePath with
    | .ok lc, .ok rc => lc == rc && decide (8 ≤ lc.length)
    | _, _ => false
  if same then
    match LoadJSONDatabase fs uuids localPath with
    | .ok db => .ok db
    | .error e => .error ("failed to load local: " ++ e)
  else
    let loc := match LoadJSONDatabase fs uuids localPath with
      | .ok db => db
      | .error _ => ⟨⟨0, "", ""⟩, [], []⟩
    match LoadJSONDatabase fs uuids remotePath with
    | .error _ => .ok loc
    | .ok rem => .ok (MergeDatabases loc rem now)

/-- The apply-updates overlay of `SaveJSONDatabase` (lines 667-685),
split into its two loop bodies (`overlayAddStep`, `overlayRetryStep`)
and the surrounding fold (`SaveJSONDatabaseOverlay`). This step is one
iteration of the `updates.Added` loop (lines 669-677): the entry is
written over `added` (with a fresh sequential ID when its ID is 0) and
the hash is deleted from `retry`. -/
def overlayAddStep
    (acc : List (String × MagnetEntry) × List (String × MagnetEntry) × Int)
    (p : String × MagnetEntry) :
    List (String × MagnetEntry) × List (String × MagnetEntry) × Int :=
  let e := if p.2.ID = 0 then {p.2 with ID := acc.2.2} else p.2
  let nid := if p.2.ID = 0 then acc.2.2 + 1 else acc.2.2
  (mapInsert acc.1 p.1 e, mapDelete acc.2.1 p.1, nid)

/-- One iteration of the `updates.Retry` loop (lines 678-684): write over
`retry`, with no corresponding deletion from `added`. -/
def overlayRetryStep (acc : List (String × MagnetEntry) × Int)
    (p : String × MagnetEntry) : List (String × MagnetEntry) × Int :=
  let e := if p.2.ID = 0 then {p.2 with ID := acc.2} else p.2
  let nid := if p.2.ID = 0 then acc.2 + 1 else acc.2
  (mapInsert acc.1 p.1 e, nid)

/-- The overlay itself: both loops run over the reconciled maps, then
`LastSequence` becomes the final counter minus one. -/
def SaveJSONDatabaseOverlay (merged updates : MagnetDatabase) :
    MagnetDatabase :=
  let start := merged.Metadata.LastSequence + 1
  let res1 := updates.Added.foldl overlayAddStep (merged.Added, merged.Retry, start)
  let res2 := updates.Retry.foldl overlayRetryStep (res1.2.1, res1.2.2)
  ⟨⟨res2.2 - 1, merged.Metadata.LastModified, merged.Metadata.Checksum⟩,
   res1.1, res2.1⟩

/-- `SaveDatabaseLocal` (lines 610-635): refresh `LastModified`, then
recompute `Checksum` over the refreshed value (so the hashed bytes carry
the new `LastModified` and the OLD stored checksum), serialize with
`MarshalIndent` (which cannot fail for this type), write a sibling
`.tmp` file, and rename it over the destination. `writeOk`/`renameOk`
inject the two I/O failure modes; a failed write may leave arbitrary
`leftover` bytes at the temp path, and a failed rename removes the temp
file. `saveTouch` is the metadata refresh (lines 611-613). -/
def saveTouch (db : MagnetDatabase) (now : String) : MagnetDatabase :=
  let db1 := {db with Metadata := {db.Metadata with LastModified := now}}
  {db1 with Metadata := {db1.Metadata with Checksum := ComputeChecksum db1}}

/-- The write/rename portion of `SaveDatabaseLocal`. -/
def SaveDatabaseLocal (fs : FS) (path : String) (db : MagnetDatabase)
    (now : String) (writeOk renameOk : Bool) (leftover : List Nat) :
    Except String Unit × FS :=
  let db2 := saveTouch db now
  let j := dbToJson db2
  let data := strBytes (renderJsonIndent 0 j)
  let tmpPath := path ++ ".tmp"
  if writeOk then
    let fs1 := fsUpdate fs tmpPath (some ⟨data, some j⟩)
    if renameOk then
      (.ok (), fsUpdate (fsUpdate fs1 path (some ⟨data, some j⟩)) tmpPath none)
    else
      (.error "rename failed", fsUpdate fs1 tmpPath none)
  else
    (.error "write failed", fsUpdate fs tmpPath (some ⟨leftover, none⟩))

/-! ## Magnet hash extraction (`ExtractMagnetHash`, lines 308-316)

Go strings are byte slices here; the regexp
`xt=urn:btih:([a-fA-F0-9]{40}|[a-zA-Z0-9]{32})` is matched leftmost,
preferring the 40-hex alternative at each position, and the captured
group is lowercased. -/

/-- ASCII hexadecimal digit (the `[a-fA-F0-9]` class). -/
def isHexByte (n : Nat) : Bool :=
  (48 ≤ n && n ≤ 57) || (97 ≤ n && n ≤ 102) || (65 ≤ n && n ≤ 70)

/-- ASCII alphanumeric (the `[a-zA-Z0-9]` class). -/
def isAlnumByte (n : Nat) : Bool :=
  (48 ≤ n && n ≤ 57) || (97 ≤ n && n ≤ 122) || (65 ≤ n && n ≤ 90)

/-- ASCII lowercasing of one byte (`strings.ToLower` on ASCII). -/
def lowerByte (n : Nat) : Nat :=
  if 65 ≤ n && n ≤ 90 then n + 32 else n

/-- Literal match of one byte list at the head of another. -/
def startsWithBytes : List Nat → List Nat → Bool
  | [], _ => true
  | _ :: _, [] => false
  | x :: xs, y :: ys => x == y && startsWithBytes xs ys

/-- Try the whole pattern at one position: the literal `xt=urn:btih:`
followed by 40 hex bytes, else 32 alphanumeric bytes; on success return
the lowercased captured group. -/
def matchBtihAt (cs : List Nat) : Option (List Nat) :=
  if startsWithBytes (strBytes "xt=urn:btih:") cs then
    if ((cs.drop 12).take 40).length == 40 && ((cs.drop 12).take 40).all isHexByte then
      some (((cs.drop 12).take 40).map lowerByte)
    else if ((cs.drop 12).take 32).length == 32 && ((cs.drop 12).take 32).all isAlnumByte then
      some (((cs.drop 12).take 32).map lowerByte)
    else none
  else none

/-- Leftmost search: try each position left to right. -/
def extractScan : List Nat → Option (List Nat)
  | [] => none
  | c :: rest =>
    match matchBtihAt (c :: rest) with
    | some m => some m
    | none => extractScan rest

/-- `ExtractMagnetHash` (lines 308-316): the lowercased first capture, or
the empty string when the pattern does not occur. -/
def ExtractMagnetHash (uri : List Nat) : List Nat :=
  (extractScan uri).getD []

/-! ## Concrete inputs used by counterexamples and witnesses -/

/-- An `added` entry with ID 1. -/
def cEntryA : MagnetEntry := {zeroEntry with ID := 1, Title := "L", Hash := "h"}

/-- A `retry` entry with the higher ID 5. -/
def cEntryB : MagnetEntry := {zeroEntry with ID := 5, Title := "R", Hash := "h"}

/-- Local snapshot: hash "h" in `added` with ID 1. -/
def cDbLocal : MagnetDatabase := ⟨⟨1, "", ""⟩, [("h", cEntryA)], []⟩

/-- Remote snapshot: the same hash in `retry` with ID 5. -/
def cDbRemote : MagnetDatabase := ⟨⟨5, "", ""⟩, [], [("h", cEntryB)]⟩

/-- A reconciled database holding hash "h" in `added`. -/
def cMergedX : MagnetDatabase := ⟨⟨1, "", ""⟩, [("h", cEntryA)], []⟩

/-- An updates database placing the same hash in `retry`. -/
def cUpdatesX : MagnetDatabase := ⟨⟨0, "", ""⟩, [], [("h", cEntryB)]⟩

/-- An update entry with a preset ID of 100. -/
def cEntry100 : MagnetEntry := {zeroEntry with ID := 100, Hash := "h"}

/-- An updates database whose `added` entry carries the preset ID 100. -/
def cUpdates100 : MagnetDatabase := ⟨⟨0, "", ""⟩, [("h", cEntry100)], []⟩

/-- Two databases with identical (empty) `added`/`retry` maps differing
only in `Metadata.LastSequence`. -/
def cDbMeta0 : MagnetDatabase := ⟨⟨0, "", ""⟩, [], []⟩

/-- Companion of `cDbMeta0` with `LastSequence = 1`. -/
def cDbMeta1 : MagnetDatabase := ⟨⟨1, "", ""⟩, [], []⟩

/-- A file system holding the two-byte document "\x7b\x7d" (an empty
JSON object) at "db.json". -/
def cFsEmptyObj : FS :=
  fun p => if p = "db.json" then some ⟨strBytes "\x7b\x7d", some (jobj [])⟩ else none

/-! ## C1 — merge winner selection -/

/-- C1 counterexample: local has hash "h" in `added` (ID 1), remote has
the same hash in `retry` with the higher ID 5. Strict tier priority
would put "h" into the merged `added` map; the code's replacement
condition lets the higher-ID retry candidate win, so "h" lands in
`retry` with the remote entry. -/
theorem C1_counterexample :
    lookupKey (MergeDatabases cDbLocal cDbRemote "t").Added "h" = none ∧
    lookupKey (MergeDatabases cDbLocal cDbRemote "t").Retry "h" = some cEntryB := by
  decide

/-! ## C2 — added/retry exclusivity -/

/-- C2 counterexample: the reconciled database holds hash "h" in
`added`; an update places the same hash in `retry`. After the overlay
the hash occurs in BOTH maps, because the `updates.Retry` loop never
deletes from `added`. -/
theorem C2_counterexample :
    (lookupKey (SaveJSONDatabaseOverlay cMergedX cUpdatesX).Added "h").isSome = true ∧
    (lookupKey (SaveJSONDatabaseOverlay cMergedX cUpdatesX).Retry "h").isSome = true := by
  decide

/-! ## C3 — load format-error condition -/

/-- C3 counterexample: a readable 2-byte file (well under the 1024-byte
threshold) whose bytes parse under every schema with zero entries is
rejected with the format error, not loaded as an empty database: the
size threshold only gates log output. -/
theorem C3_counterexample :
    (strBytes "\x7b\x7d").length ≤ 1024 ∧
    LoadJSONDatabase cFsEmptyObj (fun _ => "u") "db.json" =
      .error "unrecognized format" :=
  ⟨by decide, rfl⟩

/-! ## C4 — database checksum scope -/

set_option maxRecDepth 1000000 in
/-- C4: `ComputeChecksum` hashes `json.Marshal` of the WHOLE database
value, metadata included. Two databases with identical `added` and
`retry` contents but different `last_sequence` produce different
checksums, contradicting the field's own documentation ("Hash of
added+retry") and the spec. -/
theorem C4_checksum_covers_metadata :
    cDbMeta0.Added = cDbMeta1.Added ∧ cDbMeta0.Retry = cDbMeta1.Retry ∧
    cDbMeta0.Metadata.LastSequence ≠ cDbMeta1.Metadata.LastSequence ∧
    ComputeChecksum cDbMeta0 ≠ ComputeChecksum cDbMeta1 := by
  decide

/-! ## C5 — sequence-counter invariant -/

/-- A database whose stored `LastSequence` (100) exceeds its highest
entry ID (1). -/
def cDbSeq100 : MagnetDatabase := ⟨⟨100, "", ""⟩, [("h", cEntryA)], []⟩

/-- An updates database whose single entry carries ID 0 (to be freshly
assigned). -/
def cUpdatesFresh : MagnetDatabase := ⟨⟨0, "", ""⟩, [("g", zeroEntry)], []⟩

/-- C5 counterexample, refuting both parts of the claim. First part:
applying an update whose entry carries the preset ID 100 to an empty
reconciled database stores the entry with ID 100 but leaves
`LastSequence` at 0 — the overlay never raises the counter for preset
non-zero IDs, so `last_sequence ≥ every id` fails. Second part: merging
a database whose `LastSequence` is 100 but whose only entry has ID 1
yields `LastSequence` 1 — the merge recomputes the counter from entry
IDs alone, so `last_sequence` DOES decrease relative to the inputs. -/
theorem C5_counterexample :
    (lookupKey (SaveJSONDatabaseOverlay emptyDb cUpdates100).Added "h" = some cEntry100 ∧
      ¬(cEntry100.ID ≤ (SaveJSONDatabaseOverlay emptyDb cUpdates100).Metadata.LastSequence)) ∧
    (MergeDatabases cDbSeq100 emptyDb "t").Metadata.LastSequence <
      cDbSeq100.Metadata.LastSequence := by
  decide

/-! ## C9 — save atomicity -/

/-- A path is never equal to its sibling temp path. -/
theorem path_ne_tmp (path : String) : path ≠ path ++ ".tmp" := by
  intro h
  have hl := congrArg String.length h
  rw [String.length_append] at hl
  have : (".tmp" : String).length = 4 := by decide
  omega

/-- C9: `SaveDatabaseLocal` writes to the sibling `.tmp` path and renames
it over the destination. On any failure the destination is untouched;
when the rename fails the temp file is removed; on success the temp file
is gone and the destination holds the new content. -/
theorem C9_save_atomicity (fs : FS) (path : String) (db : MagnetDatabase)
    (now : String) (writeOk renameOk : Bool) (leftover : List Nat) :
    (∀ e : String,
      (SaveDatabaseLocal fs path db now writeOk renameOk leftover).1 = .error e →
      (SaveDatabaseLocal fs path db now writeOk renameOk leftover).2 path = fs path) ∧
    (writeOk = true → renameOk = false →
      (SaveDatabaseLocal fs path db now writeOk renameOk leftover).2 (path ++ ".tmp") = none) ∧
    ((SaveDatabaseLocal fs path db now writeOk renameOk leftover).1 = .ok () →
      (SaveDatabaseLocal fs path db now writeOk renameOk leftover).2 (path ++ ".tmp") = none ∧
      ∃ f, (SaveDatabaseLocal fs path db now writeOk renameOk leftover).2 path = some f) := by
  have hne := path_ne_tmp path
  cases writeOk <;> cases renameOk <;>
    simp [SaveDatabaseLocal, fsUpdate, hne]

/-- C9 witness: at a concrete failing rename the temp file is removed and
the destination keeps its prior (absent) contents; at a concrete failing
write the destination is also untouched. -/
theorem C9_save_atomicity_witness :
    (SaveDatabaseLocal (fun _ => none) "p" emptyDb "T" true false []).2 ("p" ++ ".tmp") = none ∧
    (SaveDatabaseLocal (fun _ => none) "p" emptyDb "T" true false []).2 "p" = (fun _ => none : FS) "p" ∧
    ((SaveDatabaseLocal (fun _ => none) "p" emptyDb "T" true true []).2 ("p" ++ ".tmp") = none ∧
      ∃ f, (SaveDatabaseLocal (fun _ => none) "p" emptyDb "T" true true []).2 "p" = some f) :=
  ⟨(C9_save_atomicity (fun _ => none) "p" emptyDb "T" true false []).2.1 rfl rfl,
   (C9_save_atomicity (fun _ => none) "p" emptyDb "T" true false []).1 "rename failed" rfl,
   (C9_save_atomicity (fun _ => none) "p" emptyDb "T" true true []).2.2 rfl⟩

/-! ## C10 — hash-key shape -/

/-- Lowercase hexadecimal ASCII byte. -/
def isLowerHexByte (n : Nat) : Bool :=
  (48 ≤ n && n ≤ 57) || (97 ≤ n && n ≤ 102)

/-- Lowercase alphanumeric ASCII byte. -/
def isLowerAlnumByte (n : Nat) : Bool :=
  (48 ≤ n && n ≤ 57) || (97 ≤ n && n ≤ 122)

/-- Lowercasing a hex digit yields a lowercase hex digit. -/
theorem lowerByte_hex (n : Nat) (h : isHexByte n = true) :
    isLowerHexByte (lowerByte n) = true := by
  simp only [isHexByte, Bool.or_eq_true, Bool.and_eq_true, decide_eq_true_eq] at h
  simp only [lowerByte, isLowerHexByte, Bool.or_eq_true, Bool.and_eq_true,
    decide_eq_true_eq]
  split <;> omega

/-- Lowercasing an alphanumeric byte yields a lowercase alphanumeric. -/
theorem lowerByte_alnum (n : Nat) (h : isAlnumByte n = true) :
    isLowerAlnumByte (lowerByte n) = true := by
  simp only [isAlnumByte, Bool.or_eq_true, Bool.and_eq_true, decide_eq_true_eq] at h
  simp only [lowerByte, isLowerAlnumByte, Bool.or_eq_true, Bool.and_eq_true,
    decide_eq_true_eq]
  split <;> omega

/-- Any successful single-position match is a lowercased 40-hex or
32-alphanumeric capture. -/
theorem matchBtihAt_shape (cs m : List Nat) (h : matchBtihAt cs = some m) :
    (m.length = 40 ∧ m.all isLowerHexByte = true) ∨
    (m.length = 32 ∧ m.all isLowerAlnumByte = true) := by
  unfold matchBtihAt at h
  split at h
  · split at h
    · rename_i hcond
      simp only [Bool.and_eq_true, beq_iff_eq] at hcond
      left
      cases h
      constructor
      · rw [List.length_map, hcond.1]
      · simp only [List.all_map, List.all_eq_true] at hcond ⊢
        intro x hx
        exact lowerByte_hex x (hcond.2 x hx)
    · split at h
      · rename_i hcond
        simp only [Bool.and_eq_true, beq_iff_eq] at hcond
        right
        cases h
        constructor
        · rw [List.length_map, hcond.1]
        · simp only [List.all_map, List.all_eq_true] at hcond ⊢
          intro x hx
          exact lowerByte_alnum x (hcond.2 x hx)
      · simp at h
  · simp at h

/-- The leftmost scan returns only shapes allowed at some position. -/
theorem extractScan_shape (cs m : List Nat) (h : extractScan cs = some m) :
    (m.length = 40 ∧ m.all isLowerHexByte = true) ∨
    (m.length = 32 ∧ m.all isLowerAlnumByte = true) := by
  induction cs with
  | nil => simp [extractScan] at h
  | cons c rest ih =>
    unfold extractScan at h
    cases hm : matchBtihAt (c :: rest) with
    | some m' =>
      rw [hm] at h
      cases h
      exact matchBtihAt_shape _ _ hm
    | none =>
      rw [hm] at h
      exact ih h

/-- C10: for every input byte string, `ExtractMagnetHash` returns either
the empty string or a lowercased capture of the `xt=urn:btih:` group —
exactly 40 lowercase-hexadecimal bytes or exactly 32 lowercase
alphanumeric bytes. Hence every database key produced from an incoming
magnet URI is lowercase of length 40 or 32. -/
theorem C10_hash_shape (uri : List Nat) :
    ExtractMagnetHash uri = [] ∨
    ((ExtractMagnetHash uri).length = 40 ∧
      (ExtractMagnetHash uri).all isLowerHexByte = true) ∨
    ((ExtractMagnetHash uri).length = 32 ∧
      (ExtractMagnetHash uri).all isLowerAlnumByte = true) := by
  unfold ExtractMagnetHash
  cases hE : extractScan uri with
  | none => left; rfl
  | some m => right; simpa using extractScan_shape uri m hE

/-! ## Association-list lemmas -/

/-- Lookup after insert-or-replace. -/
theorem lookup_mapInsert {α : Type} (m : List (String × α)) (k : String)
    (v : α) (h : String) :
    lookupKey (mapInsert m k v) h = if k = h then some v else lookupKey m h := by
  induction m with
  | nil => simp [mapInsert, lookupKey]
  | cons p rest ih =>
    obtain ⟨pk, pv⟩ := p
    by_cases h1 : pk = k <;> by_cases h2 : k = h <;> by_cases h3 : pk = h <;>
      simp_all [mapInsert, lookupKey]

/-- Lookup after deletion. -/
theorem lookup_mapDelete {α : Type} (m : List (String × α)) (k h : String) :
    lookupKey (mapDelete m k) h = if k = h then none else lookupKey m h := by
  induction m with
  | nil => simp [mapDelete, lookupKey]
  | cons p rest ih =>
    obtain ⟨pk, pv⟩ := p
    by_cases h1 : pk = k <;> by_cases h2 : k = h <;> by_cases h3 : pk = h <;>
      simp_all [mapDelete, lookupKey]

/-- A lookup misses exactly when the key is outside the key set. -/
theorem lookup_eq_none_iff {α : Type} (m : List (String × α)) (h : String) :
    lookupKey m h = none ↔ h ∉ keysOf m := by
  induction m with
  | nil => simp [lookupKey, keysOf]
  | cons p rest ih =>
    by_cases h1 : p.1 = h <;> simp_all [lookupKey, keysOf, eq_comm]

/-- A key in the key set is found. -/
theorem isSome_of_mem_keys {α : Type} (m : List (String × α)) (h : String)
    (hm : h ∈ keysOf m) : (lookupKey m h).isSome = true := by
  cases hl : lookupKey m h with
  | none => exact absurd ((lookup_eq_none_iff m h).mp hl) (by simp [hm])
  | some v => rfl

/-- Inserting a fresh key appends. -/
theorem mapInsert_fresh {α : Type} (m : List (String × α)) (k : String)
    (v : α) (hk : k ∉ keysOf m) : mapInsert m k v = m ++ [(k, v)] := by
  induction m with
  | nil => rfl
  | cons p rest ih =>
    have hne : p.1 ≠ k := by
      intro hc; exact hk (by simp [keysOf, hc])
    have : k ∉ keysOf rest := fun hm => hk (by simp [keysOf] at hm ⊢; tauto)
    simp [mapInsert, hne, ih this]

/-! ## Hash-union lemmas -/

/-- Membership in an `insertUniq` step. -/
theorem mem_insertUniq (l : List String) (a x : String) :
    x ∈ insertUniq l a ↔ x ∈ l ∨ x = a := by
  unfold insertUniq
  split
  · rename_i ha
    constructor
    · exact Or.inl
    · rintro (hx | rfl)
      · exact hx
      · exact ha
  · simp

/-- Membership in the `insertUniq` fold. -/
theorem mem_foldl_insertUniq (l : List String) (init : List String)
    (x : String) : x ∈ l.foldl insertUniq init ↔ x ∈ init ∨ x ∈ l := by
  induction l generalizing init with
  | nil => simp
  | cons a rest ih =>
    rw [List.foldl_cons, ih, mem_insertUniq]
    simp [or_assoc, eq_comm]

/-- `insertUniq` preserves distinctness. -/
theorem nodup_insertUniq (l : List String) (a : String) (h : l.Nodup) :
    (insertUniq l a).Nodup := by
  unfold insertUniq
  split
  · exact h
  · rename_i ha
    simp [List.nodup_append, h, ha]

/-- The `insertUniq` fold of a distinct accumulator stays distinct. -/
theorem nodup_foldl_insertUniq (l : List String) (init : List String)
    (h : init.Nodup) : (l.foldl insertUniq init).Nodup := by
  induction l generalizing init with
  | nil => exact h
  | cons a rest ih => exact ih _ (nodup_insertUniq _ _ h)

/-- The hash union contains exactly the keys of the four input maps. -/
theorem mem_allHashesOf (loc rem : MagnetDatabase) (h : String) :
    h ∈ allHashesOf loc rem ↔
      h ∈ keysOf loc.Added ∨ h ∈ keysOf loc.Retry ∨
      h ∈ keysOf rem.Added ∨ h ∈ keysOf rem.Retry := by
  unfold allHashesOf
  rw [mem_foldl_insertUniq]
  simp [or_assoc]

/-- The hash union is duplicate-free. -/
theorem nodup_allHashesOf (loc rem : MagnetDatabase) :
    (allHashesOf loc rem).Nodup :=
  nodup_foldl_insertUniq _ _ List.nodup_nil

/-! ## Winner-selection lemmas -/

/-- One selection step keeps an existing winner. -/
theorem pwStep_isSome (acc : Option (MagnetEntry × Bool))
    (c : Option MagnetEntry × Bool) (ha : acc.isSome = true) :
    (pwStep acc c).isSome = true := by
  unfold pwStep
  cases hc : c.1 with
  | none => exact ha
  | some e =>
    cases acc with
    | none => rfl
    | some wt =>
      obtain ⟨w, wA⟩ := wt
      by_cases hcond : (c.2 && !wA || decide (w.ID < e.ID)) = true <;>
        simp [hcond]

/-- One selection step on a present candidate yields a winner. -/
theorem pwStep_isSome_of_cand (acc : Option (MagnetEntry × Bool))
    (c : Option MagnetEntry × Bool) (hc : c.1.isSome = true) :
    (pwStep acc c).isSome = true := by
  unfold pwStep
  cases h : c.1 with
  | none => rw [h] at hc; simp at hc
  | some e =>
    cases acc with
    | none => rfl
    | some wt =>
      obtain ⟨w, wA⟩ := wt
      by_cases hcond : (c.2 && !wA || decide (w.ID < e.ID)) = true <;>
        simp [hcond]

/-- Once a winner exists, the selection fold keeps one. -/
theorem pwFold_isSome (cands : List (Option MagnetEntry × Bool))
    (acc : Option (MagnetEntry × Bool)) (ha : acc.isSome = true) :
    (cands.foldl pwStep acc).isSome = true := by
  induction cands generalizing acc with
  | nil => exact ha
  | cons c rest ih => exact ih _ (pwStep_isSome acc c ha)

/-- If some candidate is present, the selection returns a winner. -/
theorem pwFold_isSome_of_cand (cands : List (Option MagnetEntry × Bool))
    (acc : Option (MagnetEntry × Bool))
    (h : ∃ p ∈ cands, p.1.isSome = true) :
    (cands.foldl pwStep acc).isSome = true := by
  induction cands generalizing acc with
  | nil => simp at h
  | cons c rest ih =>
    obtain ⟨p, hp, hps⟩ := h
    rcases List.mem_cons.mp hp with rfl | hmem
    · exact pwFold_isSome rest _ (pwStep_isSome_of_cand acc p hps)
    · exact ih _ ⟨p, hmem, hps⟩

/-- A missing winner means all four candidate slots are empty. -/
theorem pickWinner_none_lookup (loc rem : MagnetDatabase) (h : String)
    (hw : pickWinner (candidatesFor loc rem h) = none) :
    lookupKey loc.Added h = none ∧ lookupKey loc.Retry h = none ∧
    lookupKey rem.Added h = none ∧ lookupKey rem.Retry h = none := by
  refine ⟨?_, ?_, ?_, ?_⟩ <;> by_contra hx
  · have hs : (lookupKey loc.Added h).isSome = true := by
      cases hl : lookupKey loc.Added h
      · exact absurd hl hx
      · rfl
    have := pwFold_isSome_of_cand (candidatesFor loc rem h) none
      ⟨(lookupKey loc.Added h, true), by simp [candidatesFor], hs⟩
    rw [pickWinner] at hw
    rw [hw] at this
    simp at this
  · have hs : (lookupKey loc.Retry h).isSome = true := by
      cases hl : lookupKey loc.Retry h
      · exact absurd hl hx
      · rfl
    have := pwFold_isSome_of_cand (candidatesFor loc rem h) none
      ⟨(lookupKey loc.Retry h, false), by simp [candidatesFor], hs⟩
    rw [pickWinner] at hw
    rw [hw] at this
    simp at this
  · have hs : (lookupKey rem.Added h).isSome = true := by
      cases hl : lookupKey rem.Added h
      · exact absurd hl hx
      · rfl
    have := pwFold_isSome_of_cand (candidatesFor loc rem h) none
      ⟨(lookupKey rem.Added h, true), by simp [candidatesFor], hs⟩
    rw [pickWinner] at hw
    rw [hw] at this
    simp at this
  · have hs : (lookupKey rem.Retry h).isSome = true := by
      cases hl : lookupKey rem.Retry h
      · exact absurd hl hx
      · rfl
    have := pwFold_isSome_of_cand (candidatesFor loc rem h) none
      ⟨(lookupKey rem.Retry h, false), by simp [candidatesFor], hs⟩
    rw [pickWinner] at hw
    rw [hw] at this
    simp at this

/-! ## Merge-fold lemmas -/

/-- The per-hash step leaves every other hash's lookups unchanged. -/
theorem mergeStep_other (loc rem : MagnetDatabase)
    (acc : List (String × MagnetEntry) × List (String × MagnetEntry) × Int)
    (x h : String) (hne : x ≠ h) :
    lookupKey (mergeStep loc rem acc x).1 h = lookupKey acc.1 h ∧
    lookupKey (mergeStep loc rem acc x).2.1 h = lookupKey acc.2.1 h := by
  unfold mergeStep
  cases hw : pickWinner (candidatesFor loc rem x) with
  | none => exact ⟨rfl, rfl⟩
  | some wt =>
    obtain ⟨w, tier⟩ := wt
    cases tier <;> simp [lookup_mapInsert, hne]

/-- Hashes outside the processed list are untouched by the merge fold. -/
theorem mergeFold_notmem (loc rem : MagnetDatabase) (l : List String)
    (acc : List (String × MagnetEntry) × List (String × MagnetEntry) × Int)
    (h : String) (hn : h ∉ l) :
    lookupKey (l.foldl (mergeStep loc rem) acc).1 h = lookupKey acc.1 h ∧
    lookupKey (l.foldl (mergeStep loc rem) acc).2.1 h = lookupKey acc.2.1 h := by
  induction l generalizing acc with
  | nil => exact ⟨rfl, rfl⟩
  | cons x rest ih =>
    have hxh : x ≠ h := by
      rintro rfl; exact hn (List.mem_cons_self _ _)
    have hrest : h ∉ rest := fun hm => hn (List.mem_cons_of_mem _ hm)
    have hstep := mergeStep_other loc rem acc x h hxh
    have hfold := ih (mergeStep loc rem acc x) hrest
    exact ⟨hfold.1.trans hstep.1, hfold.2.trans hstep.2⟩

/-- The entry the merge stores: the winner, its ID freshened when 0. -/
def storedOf (w : MagnetEntry) (i : Int) : MagnetEntry :=
  if w.ID = 0 then {w with ID := i} else w

/-- Processing a hash with a winner stores exactly that winner (up to ID
freshening) in the winning tier, leaving the other tier's slot for that
hash as it was in the accumulator. -/
theorem mergeFold_mem (loc rem : MagnetDatabase) (l : List String)
    (acc : List (String × MagnetEntry) × List (String × MagnetEntry) × Int)
    (h : String) (w : MagnetEntry) (tier : Bool)
    (hl : h ∈ l) (hn : l.Nodup)
    (hw : pickWinner (candidatesFor loc rem h) = some (w, tier)) :
    ∃ i : Int,
      lookupKey (l.foldl (mergeStep loc rem) acc).1 h =
        (if tier then some (storedOf w i) else lookupKey acc.1 h) ∧
      lookupKey (l.foldl (mergeStep loc rem) acc).2.1 h =
        (if tier then lookupKey acc.2.1 h else some (storedOf w i)) := by
  induction l generalizing acc with
  | nil => simp at hl
  | cons x rest ih =>
    rcases List.mem_cons.mp hl with rfl | hmem
    · have hrest : h ∉ rest := (List.nodup_cons.mp hn).1
      have hnm := mergeFold_notmem loc rem rest (mergeStep loc rem acc h) h hrest
      refine ⟨acc.2.2, ?_, ?_⟩
      · rw [List.foldl_cons, hnm.1]
        unfold mergeStep
        rw [hw]
        cases tier <;> simp [lookup_mapInsert, storedOf]
      · rw [List.foldl_cons, hnm.2]
        unfold mergeStep
        rw [hw]
        cases tier <;> simp [lookup_mapInsert, storedOf]
    · have hxh : x ≠ h := by
        rintro rfl; exact (List.nodup_cons.mp hn).1 hmem
      have hstep := mergeStep_other loc rem acc x h hxh
      obtain ⟨i, h1, h2⟩ := ih (mergeStep loc rem acc x) hmem (List.nodup_cons.mp hn).2
      refine ⟨i, ?_, ?_⟩ <;> rw [List.foldl_cons] <;> cases tier <;>
        simp_all

/-- Per-hash description of `MergeDatabases` when a winner exists. -/
theorem merge_lookup_some (loc rem : MagnetDatabase) (now h : String)
    (w : MagnetEntry) (tier : Bool)
    (hw : pickWinner (candidatesFor loc rem h) = some (w, tier)) :
    ∃ i : Int,
      lookupKey (MergeDatabases loc rem now).Added h =
        (if tier then some (storedOf w i) else none) ∧
      lookupKey (MergeDatabases loc rem now).Retry h =
        (if tier then none else some (storedOf w i)) := by
  have hmem : h ∈ allHashesOf loc rem := by
    by_contra hnm
    rw [mem_allHashesOf] at hnm
    push_neg at hnm
    obtain ⟨n1, n2, n3, n4⟩ := hnm
    have e1 := (lookup_eq_none_iff loc.Added h).mpr n1
    have e2 := (lookup_eq_none_iff loc.Retry h).mpr n2
    have e3 := (lookup_eq_none_iff rem.Added h).mpr n3
    have e4 := (lookup_eq_none_iff rem.Retry h).mpr n4
    have : pickWinner (candidatesFor loc rem h) = none := by
      unfold pickWinner candidatesFor
      rw [e1, e2, e3, e4]
      rfl
    rw [this] at hw
    exact Option.noConfusion hw
  obtain ⟨i, h1, h2⟩ := mergeFold_mem loc rem (allHashesOf loc rem)
    ([], [], 1) h w tier hmem (nodup_allHashesOf loc rem) hw
  refine ⟨i, ?_, ?_⟩
  · show lookupKey ((allHashesOf loc rem).foldl (mergeStep loc rem) ([], [], 1)).1 h = _
    rw [h1]
    cases tier <;> simp [lookupKey]
  · show lookupKey ((allHashesOf loc rem).foldl (mergeStep loc rem) ([], [], 1)).2.1 h = _
    rw [h2]
    cases tier <;> simp [lookupKey]

/-- Per-hash description of `MergeDatabases` when no candidate exists. -/
theorem merge_lookup_none (loc rem : MagnetDatabase) (now h : String)
    (hw : pickWinner (candidatesFor loc rem h) = none) :
    lookupKey (MergeDatabases loc rem now).Added h = none ∧
    lookupKey (MergeDatabases loc rem now).Retry h = none := by
  have hlk := pickWinner_none_lookup loc rem h hw
  have hmem : h ∉ allHashesOf loc rem := by
    rw [mem_allHashesOf]
    push_neg
    exact ⟨(lookup_eq_none_iff _ _).mp hlk.1, (lookup_eq_none_iff _ _).mp hlk.2.1,
      (lookup_eq_none_iff _ _).mp hlk.2.2.1, (lookup_eq_none_iff _ _).mp hlk.2.2.2⟩
  have hnm := mergeFold_notmem loc rem (allHashesOf loc rem) ([], [], 1) h hmem
  constructor
  · show lookupKey ((allHashesOf loc rem).foldl (mergeStep loc rem) ([], [], 1)).1 h = none
    rw [hnm.1]; rfl
  · show lookupKey ((allHashesOf loc rem).foldl (mergeStep loc rem) ([], [], 1)).2.1 h = none
    rw [hnm.2]; rfl

/-! ## Overlay-fold lemmas -/

/-- The `updates.Added` loop never resurrects a missing retry slot. -/
theorem overlayA_retry_none_preserved (l : List (String × MagnetEntry))
    (acc : List (String × MagnetEntry) × List (String × MagnetEntry) × Int)
    (h : String) (h0 : lookupKey acc.2.1 h = none) :
    lookupKey (l.foldl overlayAddStep acc).2.1 h = none := by
  induction l generalizing acc with
  | nil => exact h0
  | cons p rest ih =>
    apply ih
    show lookupKey (mapDelete acc.2.1 p.1) h = none
    rw [lookup_mapDelete]
    split
    · rfl
    · exact h0

/-- After the `updates.Added` loop, every updated hash is gone from
`retry`. -/
theorem overlayA_retry_none_of_mem (l : List (String × MagnetEntry))
    (acc : List (String × MagnetEntry) × List (String × MagnetEntry) × Int)
    (h : String) (hm : h ∈ l.map Prod.fst) :
    lookupKey (l.foldl overlayAddStep acc).2.1 h = none := by
  induction l generalizing acc with
  | nil => simp at hm
  | cons p rest ih =>
    rw [List.map_cons] at hm
    rw [List.foldl_cons]
    rcases List.mem_cons.mp hm with heq | hmem
    · refine overlayA_retry_none_preserved rest (overlayAddStep acc p) h ?_
      show lookupKey (mapDelete acc.2.1 p.1) h = none
      rw [lookup_mapDelete]
      simp [heq]
    · exact ih _ hmem

/-- The `updates.Added` loop keeps `added` slots present. -/
theorem overlayA_added_isSome_preserved (l : List (String × MagnetEntry))
    (acc : List (String × MagnetEntry) × List (String × MagnetEntry) × Int)
    (h : String) (h0 : (lookupKey acc.1 h).isSome = true) :
    ((lookupKey (l.foldl overlayAddStep acc).1 h)).isSome = true := by
  induction l generalizing acc with
  | nil => exact h0
  | cons p rest ih =>
    apply ih
    show (lookupKey (mapInsert acc.1 p.1
      (if p.2.ID = 0 then {p.2 with ID := acc.2.2} else p.2)) h).isSome = true
    rw [lookup_mapInsert]
    split
    · rfl
    · exact h0

/-- After the `updates.Added` loop, every updated hash is in `added`. -/
theorem overlayA_added_isSome_of_mem (l : List (String × MagnetEntry))
    (acc : List (String × MagnetEntry) × List (String × MagnetEntry) × Int)
    (h : String) (hm : h ∈ l.map Prod.fst) :
    ((lookupKey (l.foldl overlayAddStep acc).1 h)).isSome = true := by
  induction l generalizing acc with
  | nil => simp at hm
  | cons p rest ih =>
    rw [List.map_cons] at hm
    rw [List.foldl_cons]
    rcases List.mem_cons.mp hm with heq | hmem
    · refine overlayA_added_isSome_preserved rest (overlayAddStep acc p) h ?_
      show (lookupKey (mapInsert acc.1 p.1
        (if p.2.ID = 0 then {p.2 with ID := acc.2.2} else p.2)) h).isSome = true
      rw [lookup_mapInsert]
      simp [heq]
    · exact ih _ hmem

/-- The `updates.Retry` loop leaves non-updated hashes alone. -/
theorem overlayR_other (l : List (String × MagnetEntry))
    (acc : List (String × MagnetEntry) × Int) (h : String)
    (hnm : h ∉ l.map Prod.fst) :
    lookupKey (l.foldl overlayRetryStep acc).1 h = lookupKey acc.1 h := by
  induction l generalizing acc with
  | nil => rfl
  | cons p rest ih =>
    have hph : p.1 ≠ h := by
      intro hc; exact hnm (by simp [hc])
    have hrest : h ∉ rest.map Prod.fst := fun hm => hnm (by simp; right; simpa using hm)
    rw [List.foldl_cons, ih _ hrest]
    show lookupKey (mapInsert acc.1 p.1
      (if p.2.ID = 0 then {p.2 with ID := acc.2} else p.2)) h = lookupKey acc.1 h
    rw [lookup_mapInsert]
    simp [hph]

/-- The `updates.Added` loop never lowers the sequence counter. -/
theorem overlayA_nid_mono (l : List (String × MagnetEntry))
    (acc : List (String × MagnetEntry) × List (String × MagnetEntry) × Int) :
    acc.2.2 ≤ (l.foldl overlayAddStep acc).2.2 := by
  induction l generalizing acc with
  | nil => exact le_refl _
  | cons p rest ih =>
    refine le_trans ?_ (ih (overlayAddStep acc p))
    show acc.2.2 ≤ (if p.2.ID = 0 then acc.2.2 + 1 else acc.2.2)
    split <;> omega

/-- The `updates.Retry` loop never lowers the sequence counter. -/
theorem overlayR_nid_mono (l : List (String × MagnetEntry))
    (acc : List (String × MagnetEntry) × Int) :
    acc.2 ≤ (l.foldl overlayRetryStep acc).2 := by
  induction l generalizing acc with
  | nil => exact le_refl _
  | cons p rest ih =>
    refine le_trans ?_ (ih (overlayRetryStep acc p))
    show acc.2 ≤ (if p.2.ID = 0 then acc.2 + 1 else acc.2)
    split <;> omega

/-! ## Merge sequence-counter lemmas -/

/-- The per-hash merge step never lowers the counter. -/
theorem mergeStep_nid_mono (loc rem : MagnetDatabase)
    (acc : List (String × MagnetEntry) × List (String × MagnetEntry) × Int)
    (x : String) : acc.2.2 ≤ (mergeStep loc rem acc x).2.2 := by
  unfold mergeStep
  cases hw : pickWinner (candidatesFor loc rem x) with
  | none => exact le_refl _
  | some wt =>
    obtain ⟨w, tier⟩ := wt
    cases tier <;>
      · show acc.2.2 ≤ (if w.ID = 0 then acc.2.2 + 1
          else if acc.2.2 ≤ w.ID then w.ID + 1 else acc.2.2)
        split_ifs <;> omega

/-- The merge fold never lowers the counter. -/
theorem mergeFold_nid_mono (loc rem : MagnetDatabase) (l : List String)
    (acc : List (String × MagnetEntry) × List (String × MagnetEntry) × Int) :
    acc.2.2 ≤ (l.foldl (mergeStep loc rem) acc).2.2 := by
  induction l generalizing acc with
  | nil => exact le_refl _
  | cons x rest ih =>
    exact le_trans (mergeStep_nid_mono loc rem acc x) (ih (mergeStep loc rem acc x))

/-- One merge step preserves the invariant that every stored ID is below
the running counter. -/
theorem mergeStep_id_bound (loc rem : MagnetDatabase)
    (acc : List (String × MagnetEntry) × List (String × MagnetEntry) × Int)
    (x : String)
    (hb : ∀ h e, (lookupKey acc.1 h = some e ∨ lookupKey acc.2.1 h = some e) →
      e.ID ≤ acc.2.2 - 1) :
    ∀ h e, (lookupKey (mergeStep loc rem acc x).1 h = some e ∨
        lookupKey (mergeStep loc rem acc x).2.1 h = some e) →
      e.ID ≤ (mergeStep loc rem acc x).2.2 - 1 := by
  intro h e hle
  have hmono := mergeStep_nid_mono loc rem acc x
  unfold mergeStep at hle hmono ⊢
  cases hw : pickWinner (candidatesFor loc rem x) with
  | none =>
    rw [hw] at hle
    exact hb h e hle
  | some wt =>
    obtain ⟨w, tier⟩ := wt
    rw [hw] at hle hmono
    cases tier
    · simp only [Bool.false_eq_true, if_false] at hle hmono ⊢
      rcases hle with hle | hle
      · have := hb h e (Or.inl hle)
        omega
      · rw [lookup_mapInsert] at hle
        split at hle
        · cases hle
          show (if w.ID = 0 then {w with ID := acc.2.2} else w).ID ≤ _
          split_ifs at hmono ⊢ <;> simp_all <;> omega
        · have := hb h e (Or.inr hle)
          omega
    · simp only [if_true] at hle hmono ⊢
      rcases hle with hle | hle
      · rw [lookup_mapInsert] at hle
        split at hle
        · cases hle
          show (if w.ID = 0 then {w with ID := acc.2.2} else w).ID ≤ _
          split_ifs at hmono ⊢ <;> simp_all <;> omega
        · have := hb h e (Or.inl hle)
          omega
      · have := hb h e (Or.inr hle)
        omega

/-- The merge fold keeps every stored ID below the final counter. -/
theorem mergeFold_id_bound (loc rem : MagnetDatabase) (l : List String)
    (acc : List (String × MagnetEntry) × List (String × MagnetEntry) × Int)
    (hb : ∀ h e, (lookupKey acc.1 h = some e ∨ lookupKey acc.2.1 h = some e) →
      e.ID ≤ acc.2.2 - 1) :
    ∀ h e, (lookupKey (l.foldl (mergeStep loc rem) acc).1 h = some e ∨
        lookupKey (l.foldl (mergeStep loc rem) acc).2.1 h = some e) →
      e.ID ≤ (l.foldl (mergeStep loc rem) acc).2.2 - 1 := by
  induction l generalizing acc with
  | nil => exact hb
  | cons x rest ih =>
    exact ih (mergeStep loc rem acc x) (mergeStep_id_bound loc rem acc x hb)

/-! ## C1 — amended merge winner selection -/

/-- C1 (amended): per hash, `MergeDatabases` realizes the source's scan
of the fixed candidate list local-added, local-retry, remote-added,
remote-retry (`pickWinner`): a later candidate replaces the current
winner exactly when it is an `added` candidate while the winner is a
`retry` one, or its `id` is strictly higher — so a `retry` candidate
with a strictly higher `id` beats an earlier `added` winner, and ties
(same tier, no higher id) go to the earlier candidate. The selected
entry, with a fresh id assigned when its id is 0, is stored under the
winning candidate's tier and nowhere else; hashes with no candidate do
not appear. -/
theorem C1_merge_winner (loc rem : MagnetDatabase) (now h : String) :
    (pickWinner (candidatesFor loc rem h) = none →
      lookupKey (MergeDatabases loc rem now).Added h = none ∧
      lookupKey (MergeDatabases loc rem now).Retry h = none) ∧
    (∀ (w : MagnetEntry) (tier : Bool),
      pickWinner (candidatesFor loc rem h) = some (w, tier) →
      ∃ i : Int,
        lookupKey (MergeDatabases loc rem now).Added h =
          (if tier then some (storedOf w i) else none) ∧
        lookupKey (MergeDatabases loc rem now).Retry h =
          (if tier then none else some (storedOf w i))) :=
  ⟨merge_lookup_none loc rem now h,
   fun w tier hw => merge_lookup_some loc rem now h w tier hw⟩

/-- C1 witness: on the concrete pair where the retry candidate has the
higher ID, the theorem applies and places the hash in `retry`. -/
theorem C1_merge_winner_witness :
    ∃ i : Int,
      lookupKey (MergeDatabases cDbLocal cDbRemote "t").Added "h" =
        (if false then some (storedOf cEntryB i) else none) ∧
      lookupKey (MergeDatabases cDbLocal cDbRemote "t").Retry "h" =
        (if false then none else some (storedOf cEntryB i)) :=
  (C1_merge_winner cDbLocal cDbRemote "t" "h").2 cEntryB false (by decide)

/-! ## C7 — merge losslessness -/

/-- C7: every hash present in any of the four input maps survives into
the merged `added` or `retry` map — no hash is silently dropped. -/
theorem C7_merge_lossless (loc rem : MagnetDatabase) (now h : String)
    (hmem : h ∈ keysOf loc.Added ∨ h ∈ keysOf loc.Retry ∨
      h ∈ keysOf rem.Added ∨ h ∈ keysOf rem.Retry) :
    (lookupKey (MergeDatabases loc rem now).Added h).isSome = true ∨
    (lookupKey (MergeDatabases loc rem now).Retry h).isSome = true := by
  cases hw : pickWinner (candidatesFor loc rem h) with
  | none =>
    exfalso
    have hlk := pickWinner_none_lookup loc rem h hw
    rcases hmem with hm | hm | hm | hm
    · exact absurd ((lookup_eq_none_iff _ _).mp hlk.1) (by simp [hm])
    · exact absurd ((lookup_eq_none_iff _ _).mp hlk.2.1) (by simp [hm])
    · exact absurd ((lookup_eq_none_iff _ _).mp hlk.2.2.1) (by simp [hm])
    · exact absurd ((lookup_eq_none_iff _ _).mp hlk.2.2.2) (by simp [hm])
  | some wt =>
    obtain ⟨w, tier⟩ := wt
    obtain ⟨i, h1, h2⟩ := merge_lookup_some loc rem now h w tier hw
    cases tier
    · right; rw [h2]; rfl
    · left; rw [h1]; rfl

/-- C7 witness: a hash present only in the remote `retry` map survives
the concrete merge. -/
theorem C7_merge_lossless_witness :
    (lookupKey (MergeDatabases cDbLocal cDbRemote "t").Added "h").isSome = true ∨
    (lookupKey (MergeDatabases cDbLocal cDbRemote "t").Retry "h").isSome = true :=
  C7_merge_lossless cDbLocal cDbRemote "t" "h" (Or.inl (by decide))

/-! ## C2 — amended exclusivity -/

/-- C2 (amended): `MergeDatabases` itself keeps every hash in at most one
of `added`/`retry`; in the apply overlay, a hash updated through the
`added` section (and not simultaneously through `retry`) ends up in
`added` only — but the `retry` section of an update is written without
removing the hash from `added`, so exclusivity after the overlay holds
only for added-section updates (see the counterexample). -/
theorem C2_exclusivity :
    (∀ (loc rem : MagnetDatabase) (now h : String),
      ¬((lookupKey (MergeDatabases loc rem now).Added h).isSome = true ∧
        (lookupKey (MergeDatabases loc rem now).Retry h).isSome = true)) ∧
    (∀ (merged updates : MagnetDatabase) (h : String),
      h ∈ keysOf updates.Added → h ∉ keysOf updates.Retry →
      (lookupKey (SaveJSONDatabaseOverlay merged updates).Added h).isSome = true ∧
      lookupKey (SaveJSONDatabaseOverlay merged updates).Retry h = none) := by
  constructor
  · intro loc rem now h
    rintro ⟨hA, hR⟩
    cases hw : pickWinner (candidatesFor loc rem h) with
    | none =>
      rw [(merge_lookup_none loc rem now h hw).1] at hA
      simp at hA
    | some wt =>
      obtain ⟨w, tier⟩ := wt
      obtain ⟨i, h1, h2⟩ := merge_lookup_some loc rem now h w tier hw
      cases tier
      · rw [h1] at hA; simp at hA
      · rw [h2] at hR; simp at hR
  · intro merged updates h hmA hnR
    constructor
    · show (lookupKey (updates.Added.foldl overlayAddStep
        (merged.Added, merged.Retry, merged.Metadata.LastSequence + 1)).1 h).isSome = true
      exact overlayA_added_isSome_of_mem _ _ _ hmA
    · show lookupKey (updates.Retry.foldl overlayRetryStep
        ((updates.Added.foldl overlayAddStep
          (merged.Added, merged.Retry, merged.Metadata.LastSequence + 1)).2.1,
         (updates.Added.foldl overlayAddStep
          (merged.Added, merged.Retry, merged.Metadata.LastSequence + 1)).2.2)).1 h = none
      rw [overlayR_other _ _ _ hnR]
      exact overlayA_retry_none_of_mem _ _ _ hmA

/-- C2 witness: the merge keeps the concrete pair exclusive, and an
added-section update of a concrete hash leaves it in `added` only. -/
theorem C2_exclusivity_witness :
    ¬((lookupKey (MergeDatabases cDbLocal cDbRemote "t").Added "h").isSome = true ∧
      (lookupKey (MergeDatabases cDbLocal cDbRemote "t").Retry "h").isSome = true) ∧
    ((lookupKey (SaveJSONDatabaseOverlay cMergedX cUpdates100).Added "h").isSome = true ∧
      lookupKey (SaveJSONDatabaseOverlay cMergedX cUpdates100).Retry "h" = none) :=
  ⟨C2_exclusivity.1 cDbLocal cDbRemote "t" "h",
   C2_exclusivity.2 cMergedX cUpdates100 "h" (by decide) (by decide)⟩

/-! ## C5 — amended sequence-counter bounds -/

/-- One added-overlay step on a fresh-ID (ID 0) update entry preserves
the bound that every stored ID is below the running counter. -/
theorem overlayAddStep_id_bound
    (acc : List (String × MagnetEntry) × List (String × MagnetEntry) × Int)
    (p : String × MagnetEntry) (hp : p.2.ID = 0)
    (hb : ∀ h e, (lookupKey acc.1 h = some e ∨ lookupKey acc.2.1 h = some e) →
      e.ID ≤ acc.2.2 - 1) :
    ∀ h e, (lookupKey (overlayAddStep acc p).1 h = some e ∨
        lookupKey (overlayAddStep acc p).2.1 h = some e) →
      e.ID ≤ (overlayAddStep acc p).2.2 - 1 := by
  intro h e hle
  unfold overlayAddStep at hle ⊢
  simp only [hp, if_pos] at hle ⊢
  rcases hle with hle | hle
  · rw [lookup_mapInsert] at hle
    split at hle
    · cases hle
      show ({p.2 with ID := acc.2.2}).ID ≤ acc.2.2 + 1 - 1
      simp
    · have := hb h e (Or.inl hle)
      omega
  · rw [lookup_mapDelete] at hle
    split at hle
    · exact absurd hle (by simp)
    · have := hb h e (Or.inr hle)
      omega

/-- The added-overlay fold on all-fresh update entries preserves the
bound. -/
theorem overlayAddFold_id_bound (l : List (String × MagnetEntry))
    (acc : List (String × MagnetEntry) × List (String × MagnetEntry) × Int)
    (hall : ∀ p ∈ l, p.2.ID = 0)
    (hb : ∀ h e, (lookupKey acc.1 h = some e ∨ lookupKey acc.2.1 h = some e) →
      e.ID ≤ acc.2.2 - 1) :
    ∀ h e, (lookupKey (l.foldl overlayAddStep acc).1 h = some e ∨
        lookupKey (l.foldl overlayAddStep acc).2.1 h = some e) →
      e.ID ≤ (l.foldl overlayAddStep acc).2.2 - 1 := by
  induction l generalizing acc with
  | nil => exact hb
  | cons p rest ih =>
    exact ih (overlayAddStep acc p)
      (fun q hq => hall q (List.mem_cons_of_mem _ hq))
      (overlayAddStep_id_bound acc p (hall p (List.mem_cons_self _ _)) hb)

/-- One retry-overlay step on a fresh-ID update entry preserves the
bound for the retry map. -/
theorem overlayRetryStep_id_bound
    (acc : List (String × MagnetEntry) × Int)
    (p : String × MagnetEntry) (hp : p.2.ID = 0)
    (hb : ∀ h e, lookupKey acc.1 h = some e → e.ID ≤ acc.2 - 1) :
    ∀ h e, lookupKey (overlayRetryStep acc p).1 h = some e →
      e.ID ≤ (overlayRetryStep acc p).2 - 1 := by
  intro h e hle
  unfold overlayRetryStep at hle ⊢
  simp only [hp, if_pos] at hle ⊢
  rw [lookup_mapInsert] at hle
  split at hle
  · cases hle
    show ({p.2 with ID := acc.2}).ID ≤ acc.2 + 1 - 1
    simp
  · have := hb h e hle
    omega

/-- The retry-overlay fold on all-fresh update entries preserves the
bound. -/
theorem overlayRetryFold_id_bound (l : List (String × MagnetEntry))
    (acc : List (String × MagnetEntry) × Int)
    (hall : ∀ p ∈ l, p.2.ID = 0)
    (hb : ∀ h e, lookupKey acc.1 h = some e → e.ID ≤ acc.2 - 1) :
    ∀ h e, lookupKey (l.foldl overlayRetryStep acc).1 h = some e →
      e.ID ≤ (l.foldl overlayRetryStep acc).2 - 1 := by
  induction l generalizing acc with
  | nil => exact hb
  | cons p rest ih =>
    exact ih (overlayRetryStep acc p)
      (fun q hq => hall q (List.mem_cons_of_mem _ hq))
      (overlayRetryStep_id_bound acc p (hall p (List.mem_cons_self _ _)) hb)

/-- Both overlay folds together: when the starting maps satisfy the
bound at `s` and every update entry has ID 0, every stored ID stays
below the final counter. -/
theorem overlay_fold_id_bound (uA uR : List (String × MagnetEntry))
    (A R : List (String × MagnetEntry)) (s : Int)
    (hallA : ∀ p ∈ uA, p.2.ID = 0) (hallR : ∀ p ∈ uR, p.2.ID = 0)
    (hb : ∀ h e, (lookupKey A h = some e ∨ lookupKey R h = some e) → e.ID ≤ s) :
    ∀ h e,
      (lookupKey (uA.foldl overlayAddStep (A, R, s + 1)).1 h = some e ∨
        lookupKey (uR.foldl overlayRetryStep
          ((uA.foldl overlayAddStep (A, R, s + 1)).2.1,
           (uA.foldl overlayAddStep (A, R, s + 1)).2.2)).1 h = some e) →
      e.ID ≤ (uR.foldl overlayRetryStep
          ((uA.foldl overlayAddStep (A, R, s + 1)).2.1,
           (uA.foldl overlayAddStep (A, R, s + 1)).2.2)).2 - 1 := by
  intro h e hle
  have hb0 : ∀ h e,
      (lookupKey (A, R, s + 1).1 h = some e ∨
        lookupKey (A, R, s + 1).2.1 h = some e) →
      e.ID ≤ (A, R, s + 1).2.2 - 1 := by
    intro h' e' hle'
    have := hb h' e' hle'
    show e'.ID ≤ s + 1 - 1
    omega
  have h1 := overlayAddFold_id_bound uA (A, R, s + 1) hallA hb0
  have hb1 : ∀ h e,
      lookupKey ((uA.foldl overlayAddStep (A, R, s + 1)).2.1,
        (uA.foldl overlayAddStep (A, R, s + 1)).2.2).1 h = some e →
      e.ID ≤ ((uA.foldl overlayAddStep (A, R, s + 1)).2.1,
        (uA.foldl overlayAddStep (A, R, s + 1)).2.2).2 - 1 := by
    intro h' e' hle'
    exact h1 h' e' (Or.inr hle')
  have h2 := overlayRetryFold_id_bound uR _ hallR hb1
  have hmono := overlayR_nid_mono uR
    ((uA.foldl overlayAddStep (A, R, s + 1)).2.1,
     (uA.foldl overlayAddStep (A, R, s + 1)).2.2)
  rcases hle with hle | hle
  · have := h1 h e (Or.inl hle)
    simp only at hmono this ⊢
    omega
  · exact h2 h e hle

/-- C5 (amended): in `MergeDatabases` output, `LastSequence` dominates
every stored `id` (the counter is raised past preset IDs); the apply
overlay's `LastSequence` never decreases relative to the reconciled
input; and when the reconciled input satisfies the bound and every
update entry carries ID 0 — so every update ID is freshly assigned —
the bound `last_sequence ≥ every id` also holds after the overlay. The
two drops from the original claim are each exhibited in the
counterexample: the overlay does NOT raise the counter past a preset
non-zero update ID, and the merge recomputes its counter from entry IDs
alone, so its `LastSequence` can fall below an input's. -/
theorem C5_sequence_bounds :
    (∀ (loc rem : MagnetDatabase) (now h : String) (e : MagnetEntry),
      (lookupKey (MergeDatabases loc rem now).Added h = some e ∨
        lookupKey (MergeDatabases loc rem now).Retry h = some e) →
      e.ID ≤ (MergeDatabases loc rem now).Metadata.LastSequence) ∧
    (∀ merged updates : MagnetDatabase,
      merged.Metadata.LastSequence ≤
        (SaveJSONDatabaseOverlay merged updates).Metadata.LastSequence) ∧
    (∀ merged updates : MagnetDatabase,
      (∀ h e, (lookupKey merged.Added h = some e ∨
          lookupKey merged.Retry h = some e) →
        e.ID ≤ merged.Metadata.LastSequence) →
      (∀ p ∈ updates.Added, p.2.ID = 0) →
      (∀ p ∈ updates.Retry, p.2.ID = 0) →
      ∀ h e, (lookupKey (SaveJSONDatabaseOverlay merged updates).Added h = some e ∨
          lookupKey (SaveJSONDatabaseOverlay merged updates).Retry h = some e) →
        e.ID ≤ (SaveJSONDatabaseOverlay merged updates).Metadata.LastSequence) := by
  refine ⟨?_, ?_, ?_⟩
  · intro loc rem now h e hle
    have hb : ∀ (h : String) (e : MagnetEntry),
        (lookupKey ([] : List (String × MagnetEntry)) h = some e ∨
          lookupKey ([] : List (String × MagnetEntry)) h = some e) →
        e.ID ≤ (1 : Int) - 1 := by
      intro h e hco
      rcases hco with hco | hco <;> simp [lookupKey] at hco
    exact mergeFold_id_bound loc rem (allHashesOf loc rem) ([], [], 1) hb h e hle
  · intro merged updates
    show merged.Metadata.LastSequence ≤
      (updates.Retry.foldl overlayRetryStep
        ((updates.Added.foldl overlayAddStep
          (merged.Added, merged.Retry, merged.Metadata.LastSequence + 1)).2.1,
         (updates.Added.foldl overlayAddStep
          (merged.Added, merged.Retry, merged.Metadata.LastSequence + 1)).2.2)).2 - 1
    have h1 := overlayA_nid_mono updates.Added
      (merged.Added, merged.Retry, merged.Metadata.LastSequence + 1)
    have h2 := overlayR_nid_mono updates.Retry
      ((updates.Added.foldl overlayAddStep
        (merged.Added, merged.Retry, merged.Metadata.LastSequence + 1)).2.1,
       (updates.Added.foldl overlayAddStep
        (merged.Added, merged.Retry, merged.Metadata.LastSequence + 1)).2.2)
    simp only at h1 h2
    omega
  · intro merged updates hmb hallA hallR h e hle
    exact overlay_fold_id_bound updates.Added updates.Retry merged.Added
      merged.Retry merged.Metadata.LastSequence hallA hallR hmb h e hle

/-- C5 witness: the concrete merge bounds the stored ID, the concrete
overlay's counter does not decrease, and an all-fresh concrete overlay
keeps its freshly assigned ID below the new counter. -/
theorem C5_sequence_bounds_witness :
    cEntryB.ID ≤ (MergeDatabases cDbLocal cDbRemote "t").Metadata.LastSequence ∧
    emptyDb.Metadata.LastSequence ≤
      (SaveJSONDatabaseOverlay emptyDb cUpdates100).Metadata.LastSequence ∧
    ({zeroEntry with ID := 1} : MagnetEntry).ID ≤
      (SaveJSONDatabaseOverlay emptyDb cUpdatesFresh).Metadata.LastSequence :=
  ⟨C5_sequence_bounds.1 cDbLocal cDbRemote "t" "h" cEntryB (Or.inr (by decide)),
   C5_sequence_bounds.2.1 emptyDb cUpdates100,
   C5_sequence_bounds.2.2 emptyDb cUpdatesFresh
     (by
       intro h e hle
       rcases hle with hle | hle <;> simp [emptyDb, lookupKey] at hle)
     (by decide) (by decide) "g" {zeroEntry with ID := 1} (Or.inl (by decide))⟩

/-! ## C3 — amended load format-error condition -/

/-- Spec-side predicate (amended C3): some schema parse of the file's
bytes succeeds and yields at least one entry — current format with a
non-empty map, V0 with a non-empty map, or V1 with a non-empty map. -/
def parseYieldsEntries (p : Option JsonVal) : Bool :=
  match p with
  | none => false
  | some j =>
    (match decodeDatabase j with
     | some db => decide (0 < db.Added.length ∨ 0 < db.Retry.length)
     | none => false) ||
    (match decodeV0Top j with
     | some l => decide (0 < l.length)
     | none => false) ||
    (match decodeV1Top j with
     | some d1 => decide (0 < d1.Added.length + d1.Retry.length)
     | none => false)

/-- The detector cascade fails exactly when no parse yields entries. -/
theorem loadBytes_error_iff (p : Option JsonVal) (uuids : Nat → String) :
    (∃ e, loadBytes p uuids = .error e) ↔ parseYieldsEntries p = false := by
  cases p with
  | none => simp [loadBytes, parseYieldsEntries]
  | some j =>
    simp only [loadBytes, loadBytesV0, loadBytesV1, parseYieldsEntries]
    cases hd : decodeDatabase j <;> cases hv0 : decodeV0Top j <;>
      cases hv1 : decodeV1Top j <;>
      simp_all [loadBytesV0, loadBytesV1] <;> (try split_ifs) <;>
      (try simp_all [← List.length_eq_zero]) <;> omega

/-- C3 (amended): for a readable file, `LoadJSONDatabase` returns a
format error exactly when none of the three schema parses yields at
least one entry; the byte count plays no part in the decision (the
1024-byte threshold gates only diagnostic logging), so a small
zero-entry file fails just like a large one. -/
theorem C3_load_error_iff (fs : FS) (uuids : Nat → String) (path : String)
    (f : FileData) (hf : fs path = some f) :
    (∃ e, LoadJSONDatabase fs uuids path = .error e) ↔
      parseYieldsEntries f.parsed = false := by
  unfold LoadJSONDatabase
  rw [hf]
  exact loadBytes_error_iff f.parsed uuids

/-- C3 witness: the theorem applied to the concrete readable empty-object
file; both sides of the equivalence hold there. -/
theorem C3_load_error_iff_witness :
    ((∃ e, LoadJSONDatabase cFsEmptyObj (fun _ => "u") "db.json" = .error e) ↔
      parseYieldsEntries (some (jobj [])) = false) ∧
    parseYieldsEntries (some (jobj [])) = false :=
  ⟨C3_load_error_iff cFsEmptyObj (fun _ => "u") "db.json"
    ⟨strBytes "\x7b\x7d", some (jobj [])⟩ rfl, by decide⟩

/-! ## C8 — reconcile short-circuit -/

/-- The SHA-1 digest is always 20 bytes. -/
theorem sha1_length (msg : List Nat) : (sha1 msg).length = 20 := by
  simp [sha1, w32be]

/-- Hex encoding doubles the length. -/
theorem hexEncode_length (bs : List Nat) :
    (hexEncode bs).length = 2 * bs.length := by
  induction bs with
  | nil => rfl
  | cons b rest ih =>
    show ((((b :: rest).map fun b => [hexChar (b / 16), hexChar (b % 16)])).flatten).length = _
    simp only [List.map_cons, List.flatten_cons, List.length_append]
    have : ((rest.map fun b => [hexChar (b / 16), hexChar (b % 16)]).flatten).length =
        2 * rest.length := ih
    simp only [List.length_cons, List.length_nil] at this ⊢
    omega

/-- A file checksum string always has 40 characters. -/
theorem fileChecksum_length (bs : List Nat) :
    (hexEncode (sha1 bs)).length = 40 := by
  rw [hexEncode_length, sha1_length]

/-- C8: when both paths are readable and their raw file checksums agree,
`SyncWithRemote` returns exactly the database loaded from the local
path, bypassing `MergeDatabases` — the loaded local metadata comes back
unchanged. -/
theorem C8_reconcile_short_circuit (fs : FS) (uuids : Nat → String)
    (now lp rp : String) (fl fr : FileData) (db : MagnetDatabase)
    (hl : fs lp = some fl) (hr : fs rp = some fr)
    (hsum : hexEncode (sha1 fl.bytes) = hexEncode (sha1 fr.bytes))
    (hload : LoadJSONDatabase fs uuids lp = .ok db) :
    SyncWithRemote fs uuids now lp rp = .ok db := by
  have hcl : ComputeFileChecksum fs lp = .ok (hexEncode (sha1 fl.bytes)) := by
    unfold ComputeFileChecksum
    rw [hl]
  have hcr : ComputeFileChecksum fs rp = .ok (hexEncode (sha1 fr.bytes)) := by
    unfold ComputeFileChecksum
    rw [hr]
  have hsame : (hexEncode (sha1 fr.bytes) == hexEncode (sha1 fr.bytes) &&
      decide (8 ≤ (hexEncode (sha1 fr.bytes)).length)) = true := by
    simp [fileChecksum_length]
  unfold SyncWithRemote
  rw [hcl, hcr, hsum]
  simp only [hsame, if_true]
  rw [hload]

/-- A current-format document with one entry, for the C8 witness. -/
def cJsonOne : JsonVal := jobj [("added", jobj [("h", jnull)])]

/-- The database that document loads to. -/
def cDbOne : MagnetDatabase := ⟨⟨0, "", ""⟩, [("h", zeroEntry)], []⟩

/-- A file system whose local and remote paths hold identical bytes. -/
def cFsPair : FS :=
  fun p => if p = "l" ∨ p = "r" then some ⟨[1, 2, 3], some cJsonOne⟩ else none

/-- C8 witness: on byte-identical concrete files the sync returns the
local load. -/
theorem C8_reconcile_short_circuit_witness :
    SyncWithRemote cFsPair (fun _ => "u") "t" "l" "r" = .ok cDbOne :=
  C8_reconcile_short_circuit cFsPair (fun _ => "u") "t" "l" "r"
    ⟨[1, 2, 3], some cJsonOne⟩ ⟨[1, 2, 3], some cJsonOne⟩ cDbOne rfl rfl rfl rfl

/-! ## C6 — encode/decode round-trip lemmas -/

/-- The entry-decoder fold from a given partial entry. -/
def entryFold (cur : MagnetEntry) (fs : List (String × JsonVal)) :
    Option MagnetEntry :=
  fs.foldl (fun acc kv => acc.bind (fun a => entrySetField a kv)) (some cur)

/-- Splitting the entry fold across an append, given the prefix result. -/
theorem entryFold_append_some (cur a : MagnetEntry)
    (l1 l2 : List (String × JsonVal)) (h : entryFold cur l1 = some a) :
    entryFold cur (l1 ++ l2) = entryFold a l2 := by
  unfold entryFold at h ⊢
  rw [List.foldl_append, h]

/-- Decoding the mandatory `uuid` member. -/
theorem entryFold_uuid (cur : MagnetEntry) (u : String) :
    entryFold cur [("uuid", jstr u)] = some {cur with UUID := u} := by
  simp [entryFold, entrySetField, setStr]

/-- Decoding the four mandatory string members. -/
theorem entryFold_mandatory (cur : MagnetEntry) (t ha ur ad : String) :
    entryFold cur [("title", jstr t), ("hash", jstr ha), ("uri", jstr ur),
      ("added_date", jstr ad)] =
    some {cur with Title := t, Hash := ha, URI := ur, AddedDate := ad} := by
  simp [entryFold, entrySetField, setStr]

/-- Decoding the optional `id` member of a zero-ID partial entry. -/
theorem entryFold_id (cur : MagnetEntry) (i : Int) (hc : cur.ID = 0) :
    entryFold cur (optIntField "id" i) = some {cur with ID := i} := by
  by_cases hi : i = 0
  · have hrw : ({cur with ID := i}) = cur := by
      cases cur; subst hi; simp_all
    rw [hrw]
    simp [optIntField, hi, entryFold]
  · simp [optIntField, hi, entryFold, entrySetField, setInt]

/-- Decoding the optional `retry_count` member. -/
theorem entryFold_retry_count (cur : MagnetEntry) (i : Int)
    (hc : cur.RetryCount = 0) :
    entryFold cur (optIntField "retry_count" i) =
      some {cur with RetryCount := i} := by
  by_cases hi : i = 0
  · have hrw : ({cur with RetryCount := i}) = cur := by
      cases cur; subst hi; simp_all
    rw [hrw]
    simp [optIntField, hi, entryFold]
  · simp [optIntField, hi, entryFold, entrySetField, setInt]

/-- Decoding the optional `first_seen` member. -/
theorem entryFold_first_seen (cur : MagnetEntry) (s : String)
    (hc : cur.FirstSeen = "") :
    entryFold cur (optStrField "first_seen" s) =
      some {cur with FirstSeen := s} := by
  by_cases hs : s = ""
  · have hrw : ({cur with FirstSeen := s}) = cur := by
      cases cur; subst hs; simp_all
    rw [hrw]
    simp [optStrField, hs, entryFold]
  · simp [optStrField, hs, entryFold, entrySetField, setStr]

/-- Decoding the optional `last_attempt` member. -/
theorem entryFold_last_attempt (cur : MagnetEntry) (s : String)
    (hc : cur.LastAttempt = "") :
    entryFold cur (optStrField "last_attempt" s) =
      some {cur with LastAttempt := s} := by
  by_cases hs : s = ""
  · have hrw : ({cur with LastAttempt := s}) = cur := by
      cases cur; subst hs; simp_all
    rw [hrw]
    simp [optStrField, hs, entryFold]
  · simp [optStrField, hs, entryFold, entrySetField, setStr]

/-- Decoding the optional `status` member. -/
theorem entryFold_status (cur : MagnetEntry) (s : String)
    (hc : cur.Status = "") :
    entryFold cur (optStrField "status" s) = some {cur with Status := s} := by
  by_cases hs : s = ""
  · have hrw : ({cur with Status := s}) = cur := by
      cases cur; subst hs; simp_all
    rw [hrw]
    simp [optStrField, hs, entryFold]
  · simp [optStrField, hs, entryFold, entrySetField, setStr]

/-- Decoding the optional `torrent_id` member. -/
theorem entryFold_torrent_id (cur : MagnetEntry) (s : String)
    (hc : cur.TorrentID = "") :
    entryFold cur (optStrField "torrent_id" s) =
      some {cur with TorrentID := s} := by
  by_cases hs : s = ""
  · have hrw : ({cur with TorrentID := s}) = cur := by
      cases cur; subst hs; simp_all
    rw [hrw]
    simp [optStrField, hs, entryFold]
  · simp [optStrField, hs, entryFold, entrySetField, setStr]

/-- Decoding the optional `added_to_deluge` member. -/
theorem entryFold_added_to_deluge (cur : MagnetEntry) (s : String)
    (hc : cur.AddedToDeluge = "") :
    entryFold cur (optStrField "added_to_deluge" s) =
      some {cur with AddedToDeluge := s} := by
  by_cases hs : s = ""
  · have hrw : ({cur with AddedToDeluge := s}) = cur := by
      cases cur; subst hs; simp_all
    rw [hrw]
    simp [optStrField, hs, entryFold]
  · simp [optStrField, hs, entryFold, entrySetField, setStr]

/-- Decoding the optional `save_path` member. -/
theorem entryFold_save_path (cur : MagnetEntry) (s : String)
    (hc : cur.SavePath = "") :
    entryFold cur (optStrField "save_path" s) =
      some {cur with SavePath := s} := by
  by_cases hs : s = ""
  · have hrw : ({cur with SavePath := s}) = cur := by
      cases cur; subst hs; simp_all
    rw [hrw]
    simp [optStrField, hs, entryFold]
  · simp [optStrField, hs, entryFold, entrySetField, setStr]

/-- Decoding the optional `torrent_name` member. -/
theorem entryFold_torrent_name (cur : MagnetEntry) (s : String)
    (hc : cur.TorrentName = "") :
    entryFold cur (optStrField "torrent_name" s) =
      some {cur with TorrentName := s} := by
  by_cases hs : s = ""
  · have hrw : ({cur with TorrentName := s}) = cur := by
      cases cur; subst hs; simp_all
    rw [hrw]
    simp [optStrField, hs, entryFold]
  · simp [optStrField, hs, entryFold, entrySetField, setStr]

/-- Decoding an encoded entry restores it exactly: `omitempty` omission
is inverted by the decoder's zero-value defaults. -/
theorem decodeEntry_entryToJson (e : MagnetEntry) :
    decodeEntry (entryToJson e) = some e := by
  obtain ⟨u, i, t, ha, ur, ad, f1, la, st, ti, atd, rc, sp, tn⟩ := e
  show entryFold zeroEntry _ = _
  have s1 := entryFold_uuid zeroEntry u
  have s2 := entryFold_append_some _ _ _ (optIntField "id" i) s1
  rw [entryFold_id _ i rfl] at s2
  have s3 := entryFold_append_some _ _ _ [("title", jstr t), ("hash", jstr ha),
    ("uri", jstr ur), ("added_date", jstr ad)] s2
  rw [entryFold_mandatory] at s3
  have s4 := entryFold_append_some _ _ _ (optStrField "first_seen" f1) s3
  rw [entryFold_first_seen _ f1 rfl] at s4
  have s5 := entryFold_append_some _ _ _ (optStrField "last_attempt" la) s4
  rw [entryFold_last_attempt _ la rfl] at s5
  have s6 := entryFold_append_some _ _ _ (optStrField "status" st) s5
  rw [entryFold_status _ st rfl] at s6
  have s7 := entryFold_append_some _ _ _ (optStrField "torrent_id" ti) s6
  rw [entryFold_torrent_id _ ti rfl] at s7
  have s8 := entryFold_append_some _ _ _ (optStrField "added_to_deluge" atd) s7
  rw [entryFold_added_to_deluge _ atd rfl] at s8
  have s9 := entryFold_append_some _ _ _ (optIntField "retry_count" rc) s8
  rw [entryFold_retry_count _ rc rfl] at s9
  have s10 := entryFold_append_some _ _ _ (optStrField "save_path" sp) s9
  rw [entryFold_save_path _ sp rfl] at s10
  have s11 := entryFold_append_some _ _ _ (optStrField "torrent_name" tn) s10
  rw [entryFold_torrent_name _ tn rfl] at s11
  exact s11

/-- Decoding an encoded metadata object restores it, from any initial
value (all three fields are set unconditionally). -/
theorem decodeMetadataInto_metadataToJson (m0 m : DatabaseMetadata) :
    decodeMetadataInto m0 (metadataToJson m) = some m := by
  obtain ⟨ls, lm, ck⟩ := m
  simp [metadataToJson, decodeMetadataInto, decodeFields, metadataSetField,
    setInt, setStr]

/-- The keys of a sorted insertion are a permutation of the inserted key
and the old keys. -/
theorem keysOf_insortKey {α : Type} (p : String × α)
    (l : List (String × α)) :
    (keysOf (insortKey p l)).Perm (p.1 :: keysOf l) := by
  induction l with
  | nil => exact List.Perm.refl _
  | cons q rest ih =>
    unfold insortKey
    split
    · exact List.Perm.refl _
    · show (q.1 :: keysOf (insortKey p rest)).Perm (p.1 :: q.1 :: keysOf rest)
      exact (ih.cons q.1).trans (List.Perm.swap p.1 q.1 (keysOf rest))

/-- Sorting permutes the key list. -/
theorem keysOf_sortKeys_perm {α : Type} (m : List (String × α)) :
    (keysOf (sortKeys m)).Perm (keysOf m) := by
  induction m with
  | nil => exact List.Perm.refl _
  | cons p rest ih =>
    show (keysOf (insortKey p (sortKeys rest))).Perm (keysOf (p :: rest))
    exact (keysOf_insortKey p (sortKeys rest)).trans (ih.cons p.1)

/-- Inserting a fresh key leaves all other lookups alone and adds its
own. -/
theorem lookup_insortKey {α : Type} (p : String × α) (l : List (String × α))
    (hp : p.1 ∉ keysOf l) (h : String) :
    lookupKey (insortKey p l) h =
      if p.1 = h then some p.2 else lookupKey l h := by
  induction l with
  | nil => simp [insortKey, lookupKey]
  | cons q rest ih =>
    have hq : p.1 ≠ q.1 := by
      intro hc; exact hp (by simp [keysOf, hc])
    have hrest : p.1 ∉ keysOf rest := fun hm => hp (by simp [keysOf] at hm ⊢; tauto)
    unfold insortKey
    split
    · simp [lookupKey]
    · by_cases hqh : q.1 = h
      · have hph : p.1 ≠ h := fun hc => hq (hc.trans hqh.symm)
        simp [lookupKey, hqh, hph]
      · simp [lookupKey, hqh, ih hrest]

/-- With distinct keys, sorting does not change any lookup. -/
theorem lookup_sortKeys {α : Type} (m : List (String × α))
    (hnd : (keysOf m).Nodup) (h : String) :
    lookupKey (sortKeys m) h = lookupKey m h := by
  induction m with
  | nil => rfl
  | cons p rest ih =>
    have hhd : p.1 ∉ keysOf rest := by
      have := (List.nodup_cons.mp hnd).1
      simpa [keysOf] using this
    have hp : p.1 ∉ keysOf (sortKeys rest) :=
      fun hm => hhd ((keysOf_sortKeys_perm rest).mem_iff.mp hm)
    show lookupKey (insortKey p (sortKeys rest)) h = _
    rw [lookup_insortKey p (sortKeys rest) hp h,
      ih (List.nodup_cons.mp hnd).2]
    simp [lookupKey]

/-- A sorted insertion grows the list by one. -/
theorem insortKey_length {α : Type} (p : String × α) (l : List (String × α)) :
    (insortKey p l).length = l.length + 1 := by
  induction l with
  | nil => rfl
  | cons q rest ih =>
    unfold insortKey
    split
    · rfl
    · simp [List.length_cons, ih]

/-- Sorting preserves the length. -/
theorem sortKeys_length {α : Type} (m : List (String × α)) :
    (sortKeys m).length = m.length := by
  induction m with
  | nil => rfl
  | cons p rest ih =>
    show (insortKey p (sortKeys rest)).length = _
    rw [insortKey_length, ih]
    rfl

/-- Decoding a list of encoded entries with fresh, distinct keys appends
them all. -/
theorem decodeMapEntries_fold (l : List (String × MagnetEntry))
    (acc : List (String × MagnetEntry))
    (hnd : (keysOf l).Nodup)
    (hdisj : ∀ k ∈ keysOf l, k ∉ keysOf acc) :
    (l.map (fun p => (p.1, entryToJson p.2))).foldl
      (fun acc2 kv => acc2.bind (fun m => (decodeEntry kv.2).map (mapInsert m kv.1)))
      (some acc) = some (acc ++ l) := by
  induction l generalizing acc with
  | nil => simp
  | cons p rest ih =>
    have hnd2 : (p.1 :: keysOf rest).Nodup := hnd
    have hp1 : p.1 ∉ keysOf rest := (List.nodup_cons.mp hnd2).1
    have hndr : (keysOf rest).Nodup := (List.nodup_cons.mp hnd2).2
    simp only [List.map_cons, List.foldl_cons]
    rw [show ((some acc).bind
        (fun m => (decodeEntry (entryToJson p.2)).map (mapInsert m p.1))) =
        some (mapInsert acc p.1 p.2) from by
      rw [decodeEntry_entryToJson]; rfl]
    rw [mapInsert_fresh acc p.1 p.2 (hdisj p.1 (by simp [keysOf]))]
    have hdisj2 : ∀ k ∈ keysOf rest, k ∉ keysOf (acc ++ [(p.1, p.2)]) := by
      intro k hk hmem
      have hkeys : keysOf (acc ++ [(p.1, p.2)]) = keysOf acc ++ [p.1] := by
        simp [keysOf]
      rw [hkeys] at hmem
      rcases List.mem_append.mp hmem with hmem | hmem
      · exact hdisj k (List.mem_cons_of_mem _ hk) hmem
      · simp at hmem
        exact hp1 (hmem ▸ hk)
    rw [ih (acc ++ [(p.1, p.2)]) hndr hdisj2]
    simp

/-- Decoding an encoded map yields the key-sorted association list. -/
theorem decodeEntryMapInto_mapToJson (m : List (String × MagnetEntry))
    (hnd : (keysOf m).Nodup) :
    decodeEntryMapInto [] (mapToJson m) = some (sortKeys m) := by
  have hnd' : (keysOf (sortKeys m)).Nodup :=
    ((keysOf_sortKeys_perm m).nodup_iff).mpr hnd
  show (((sortKeys m).map fun p => (p.1, entryToJson p.2)).foldl _ (some [])) = _
  rw [decodeMapEntries_fold (sortKeys m) [] hnd' (by simp [keysOf])]
  rfl

/-- Decoding an encoded database restores the metadata exactly and the
maps up to key order. -/
theorem decodeDatabase_dbToJson (db : MagnetDatabase)
    (hA : (keysOf db.Added).Nodup) (hR : (keysOf db.Retry).Nodup) :
    decodeDatabase (dbToJson db) =
      some ⟨db.Metadata, sortKeys db.Added, sortKeys db.Retry⟩ := by
  show decodeFields dbSetField emptyDb
    [("metadata", metadataToJson db.Metadata), ("added", mapToJson db.Added),
     ("retry", mapToJson db.Retry)] = _
  simp only [decodeFields, List.foldl_cons, List.foldl_nil]
  rw [show ((some emptyDb).bind fun a =>
      dbSetField a ("metadata", metadataToJson db.Metadata)) =
      some (⟨db.Metadata, [], []⟩ : MagnetDatabase) from by
    simp [dbSetField, decodeMetadataInto_metadataToJson, emptyDb]]
  rw [show ((some (⟨db.Metadata, [], []⟩ : MagnetDatabase)).bind fun a =>
      dbSetField a ("added", mapToJson db.Added)) =
      some (⟨db.Metadata, sortKeys db.Added, []⟩ : MagnetDatabase) from by
    simp [dbSetField, decodeEntryMapInto_mapToJson db.Added hA]]
  rw [show ((some (⟨db.Metadata, sortKeys db.Added, []⟩ : MagnetDatabase)).bind fun a =>
      dbSetField a ("retry", mapToJson db.Retry)) =
      some (⟨db.Metadata, sortKeys db.Added, sortKeys db.Retry⟩ : MagnetDatabase) from by
    simp [dbSetField, decodeEntryMapInto_mapToJson db.Retry hR]]

/-- The V0 parse of an encoded empty current-schema database "succeeds":
the three top-level objects each decode to a zero V0 entry (their members
match no V0 field name), so the flat-map attempt reports three entries. -/
theorem decodeV0Top_dbToJson_empty (md : DatabaseMetadata) :
    decodeV0Top (dbToJson ⟨md, [], []⟩) =
      some [("metadata", zeroEntryV0), ("added", zeroEntryV0),
        ("retry", zeroEntryV0)] := by
  obtain ⟨ls, lm, ck⟩ := md
  simp [dbToJson, mapToJson, sortKeys, metadataToJson, decodeV0Top,
    decodeEntryV0, decodeFields, v0SetField, setInt, setStr, mapInsert]

/-- Loading the marshalled form of any well-formed database succeeds and
reproduces every entry: a non-empty database comes back through the
current-format parse exactly (up to map key order); an empty one falls
through to the V0 attempt, which "succeeds" with synthetic entries —
either way the load does not fail and every original entry is present
unchanged. -/
theorem loadBytes_some (j : JsonVal) (uuids : Nat → String) :
    loadBytes (some j) uuids =
      (match decodeDatabase j with
       | some db =>
         if 0 < db.Added.length ∨ 0 < db.Retry.length then .ok db
         else loadBytesV0 j uuids
       | none => loadBytesV0 j uuids) := rfl

theorem loadBytes_roundtrip (db : MagnetDatabase) (uuids : Nat → String)
    (hA : (keysOf db.Added).Nodup) (hR : (keysOf db.Retry).Nodup) :
    ∃ db2, loadBytes (some (dbToJson db)) uuids = .ok db2 ∧
      (∀ h e, lookupKey db.Added h = some e → lookupKey db2.Added h = some e) ∧
      (∀ h e, lookupKey db.Retry h = some e → lookupKey db2.Retry h = some e) := by
  by_cases hne : 0 < db.Added.length ∨ 0 < db.Retry.length
  · refine ⟨⟨db.Metadata, sortKeys db.Added, sortKeys db.Retry⟩, ?_, ?_, ?_⟩
    · rw [loadBytes_some, decodeDatabase_dbToJson db hA hR]
      have hcond : 0 < (sortKeys db.Added).length ∨
          0 < (sortKeys db.Retry).length := by
        rw [sortKeys_length, sortKeys_length]
        exact hne
      simp [hcond]
    · intro h e hl
      show lookupKey (sortKeys db.Added) h = some e
      rw [lookup_sortKeys db.Added hA h]
      exact hl
    · intro h e hl
      show lookupKey (sortKeys db.Retry) h = some e
      rw [lookup_sortKeys db.Retry hR h]
      exact hl
  · push_neg at hne
    have hA0 : db.Added = [] := by
      have := hne.1
      cases hl : db.Added with
      | nil => rfl
      | cons x xs => rw [hl] at this; simp at this
    have hR0 : db.Retry = [] := by
      have := hne.2
      cases hl : db.Retry with
      | nil => rfl
      | cons x xs => rw [hl] at this; simp at this
    refine ⟨migrateV0 [("metadata", zeroEntryV0), ("added", zeroEntryV0),
      ("retry", zeroEntryV0)] uuids, ?_, ?_, ?_⟩
    · rw [loadBytes_some, decodeDatabase_dbToJson db hA hR]
      have hcond : ¬(0 < (sortKeys db.Added).length ∨
          0 < (sortKeys db.Retry).length) := by
        rw [sortKeys_length, sortKeys_length]
        rintro (hc | hc) <;> omega
      simp only [hcond, if_false]
      unfold loadBytesV0
      have hdb : db = ⟨db.Metadata, [], []⟩ := by
        cases db
        simp_all
      rw [show decodeV0Top (dbToJson db) = some [("metadata", zeroEntryV0),
        ("added", zeroEntryV0), ("retry", zeroEntryV0)] from by
        rw [hdb]
        exact decodeV0Top_dbToJson_empty _]
      simp
    · intro h e hl
      rw [hA0] at hl
      simp [lookupKey] at hl
    · intro h e hl
      rw [hR0] at hl
      simp [lookupKey] at hl

/-- After a successful save, the destination holds the marshalled bytes
of the metadata-touched database. -/
theorem saveLocal_ok_file (fs : FS) (path : String) (db : MagnetDatabase)
    (now : String) (leftover : List Nat) :
    (SaveDatabaseLocal fs path db now true true leftover).2 path =
      some ⟨strBytes (renderJsonIndent 0 (dbToJson (saveTouch db now))),
        some (dbToJson (saveTouch db now))⟩ := by
  show fsUpdate (fsUpdate (fsUpdate fs (path ++ ".tmp") _) path _)
    (path ++ ".tmp") none path = _
  simp [fsUpdate, path_ne_tmp path]

/-- C6: saving any well-formed database and loading it back succeeds,
and the loaded database reproduces every field of every entry of the
original exactly (entries are untouched by the save's metadata refresh;
lookups survive the encoder's key sorting). -/
theorem C6_save_load_roundtrip (fs : FS) (path now : String)
    (db : MagnetDatabase) (uuids : Nat → String)
    (hA : (keysOf db.Added).Nodup) (hR : (keysOf db.Retry).Nodup) :
    (SaveDatabaseLocal fs path db now true true []).1 = .ok () ∧
    ∃ db2,
      LoadJSONDatabase (SaveDatabaseLocal fs path db now true true []).2
        uuids path = .ok db2 ∧
      (∀ h e, lookupKey db.Added h = some e → lookupKey db2.Added h = some e) ∧
      (∀ h e, lookupKey db.Retry h = some e → lookupKey db2.Retry h = some e) := by
  refine ⟨rfl, ?_⟩
  unfold LoadJSONDatabase
  rw [saveLocal_ok_file fs path db now []]
  have hA2 : (keysOf (saveTouch db now).Added).Nodup := hA
  have hR2 : (keysOf (saveTouch db now).Retry).Nodup := hR
  obtain ⟨db2, h1, h2, h3⟩ := loadBytes_roundtrip (saveTouch db now) uuids hA2 hR2
  exact ⟨db2, h1, h2, h3⟩

/-- C6 witness: the round trip applied to a concrete one-entry database
on an empty file system. -/
theorem C6_save_load_roundtrip_witness :
    (SaveDatabaseLocal (fun _ => none) "p" cDbLocal "T" true true []).1 = .ok () ∧
    ∃ db2,
      LoadJSONDatabase (SaveDatabaseLocal (fun _ => none) "p" cDbLocal "T" true true []).2
        (fun _ => "u") "p" = .ok db2 ∧
      (∀ h e, lookupKey cDbLocal.Added h = some e → lookupKey db2.Added h = some e) ∧
      (∀ h e, lookupKey cDbLocal.Retry h = some e → lookupKey db2.Retry h = some e) :=
  C6_save_load_roundtrip (fun _ => none) "p" "T" cDbLocal (fun _ => "u")
    (by decide) (by decide)
